import Mathlib

/-!
# Verification of the BIM sign-language detection backend

Shallow embedding of the core detection pipeline of the repository:

* `backend/hand_detector.py`   — bounding-box derivation and hand-region cropping,
* `backend/geometry_validator.py` — landmark-geometry validation of predictions,
* `backend/accurate_sign_detector.py` — multi-model classification and aggregation,
* `backend/hybrid_detector.py` — the TTL/capacity-bounded detection cache and fast crop.

Floating-point numbers are modelled as exact rationals (`ℚ`).  `np.sqrt` is
noncomputable over `ℚ`, so the geometry functions take the square-root function
as an explicit parameter `sq : ℚ → ℚ`; every theorem uses only the fact that a
square root is nonnegative, and concrete instantiations pick a function that
agrees with the true square root on the inputs actually queried.
-/

/-- Python `int()` on a float: truncation toward zero. -/
def pyInt (q : ℚ) : ℤ := if q < 0 then ⌈q⌉ else ⌊q⌋

/-- Python `min` over a list, seeded with the head (`min([])` raises in Python;
the `[]` case here is a junk value, theorems assume nonempty input). -/
def listMin : List ℚ → ℚ
  | [] => 0
  | x :: xs => xs.foldl min x

/-- Python `max` over a list of numbers, seeded with the head. -/
def listMax : List ℚ → ℚ
  | [] => 0
  | x :: xs => xs.foldl max x

/-- The running-best fold behind Python `max(lst, key=key)`: the best is
replaced only on a strictly greater key, so the first maximum wins. -/
def pyFold {α : Type} (key : α → ℚ) : α → List α → α
  | b, [] => b
  | b, a :: l => pyFold key (if key b < key a then a else b) l

/-- Python `max(lst, key=key)`: the first element attaining the maximal key.
`none` on the empty list, where Python raises. -/
def pyMaxBy {α : Type} (key : α → ℚ) : List α → Option α
  | [] => none
  | x :: xs => some (pyFold key x xs)

/-- One hand landmark: position and visibility, as in the dicts built by
`hand_detector.detect_hands` (`{'x', 'y', 'z', 'visibility'}`). -/
structure Landmark where
  x : ℚ
  y : ℚ
  z : ℚ
  visibility : ℚ
deriving Repr, DecidableEq, Inhabited

/-- Bounding box in the shape built by `detect_hands`: Roboflow-style center
`x`/`y` plus `width`/`height`, and corner fields `x_min … y_max`. -/
structure BBox where
  x : ℚ
  y : ℚ
  width : ℤ
  height : ℤ
  x_min : ℤ
  y_min : ℤ
  x_max : ℤ
  y_max : ℤ
deriving Repr, DecidableEq, Inhabited

/-- `hand_detector.detect_hands`, lines 79–98: bounding box of one hand from
its 21 normalized landmarks, padded by 20% of the box size and clamped to the
image bounds (`w`, `h` = image width and height in pixels). -/
def handBBox (w h : ℕ) (lms : List Landmark) : BBox :=
  let xCoords := lms.map (fun lm => lm.x * (w : ℚ))
  let yCoords := lms.map (fun lm => lm.y * (h : ℚ))
  let xMin0 := pyInt (listMin xCoords)
  let xMax0 := pyInt (listMax xCoords)
  let yMin0 := pyInt (listMin yCoords)
  let yMax0 := pyInt (listMax yCoords)
  let padX := pyInt ((xMax0 - xMin0 : ℚ) * (2 / 10))
  let padY := pyInt ((yMax0 - yMin0 : ℚ) * (2 / 10))
  let xMin := max 0 (xMin0 - padX)
  let yMin := max 0 (yMin0 - padY)
  let xMax := min (w : ℤ) (xMax0 + padX)
  let yMax := min (h : ℤ) (yMax0 + padY)
  let bw := xMax - xMin
  let bh := yMax - yMin
  { x := (xMin : ℚ) + (bw : ℚ) / 2, y := (yMin : ℚ) + (bh : ℚ) / 2,
    width := bw, height := bh,
    x_min := xMin, y_min := yMin, x_max := xMax, y_max := yMax }

/-- Landmark coordinates denormalized to pixels, as stored under
`'landmarks': {'coordinates': …}` by `detect_hands` (lines 113–122). -/
def pixelLandmarks (w h : ℕ) (lms : List Landmark) : List Landmark :=
  lms.map (fun lm =>
    { x := lm.x * (w : ℚ), y := lm.y * (h : ℚ), z := lm.z * (w : ℚ),
      visibility := lm.visibility })

/-- Raw per-hand output of the external MediaPipe landmarker: handedness
category name, handedness score, and normalized landmarks. -/
structure RawHand where
  category : String
  score : ℚ
  lms : List Landmark
deriving Repr, DecidableEq, Inhabited

/-- One element of the list returned by `detect_hands`. -/
structure HandDetection where
  hand_label : String
  confidence : ℚ
  bbox : BBox
  landmarks : List Landmark
deriving Repr, DecidableEq, Inhabited

/-- `hand_detector.detect_hands`: one `HandDetection` per hand reported by the
external model, in the model's order. -/
def detectHands (w h : ℕ) (hands : List RawHand) : List HandDetection :=
  hands.map (fun hd =>
    { hand_label := hd.category, confidence := hd.score,
      bbox := handBBox w h hd.lms,
      landmarks := pixelLandmarks w h hd.lms })

/-! ## Geometry validator (`backend/geometry_validator.py`) -/

/-- One entry of `GeometryValidator.sign_rules`: optional expected
finger-extension pattern and optional hand-openness bounds. -/
structure SignRule where
  fingers_extended : Option (List ℕ)
  hand_openness_min : Option ℚ
  hand_openness_max : Option ℚ
deriving Repr, DecidableEq

/-- The rule table of `GeometryValidator.__init__` (lines 16–35), verbatim. -/
def signRules : List (String × SignRule) :=
  [("TOLONG", { fingers_extended := some [1, 1, 1, 1, 1],
                hand_openness_min := some (6 / 10), hand_openness_max := none }),
   ("TERIMA KASIH", { fingers_extended := some [0, 0, 0, 0, 0],
                      hand_openness_min := none, hand_openness_max := some (3 / 10) }),
   ("SAYA", { fingers_extended := some [0, 1, 0, 0, 0],
              hand_openness_min := none, hand_openness_max := none }),
   ("YA", { fingers_extended := some [1, 0, 0, 0, 0],
            hand_openness_min := none, hand_openness_max := some (4 / 10) }),
   ("TIDAK", { fingers_extended := some [0, 1, 1, 0, 0],
               hand_openness_min := none, hand_openness_max := none })]

/-- `_distance_2d`: 2-D Euclidean distance, with the square root `sq` passed
in explicitly (see the header note). -/
def dist2d (sq : ℚ → ℚ) (p1 p2 : Landmark) : ℚ :=
  let dx := p1.x - p2.x
  let dy := p1.y - p2.y
  sq (dx * dx + dy * dy)

/-- Landmark used to totalize list indexing.  Python would raise `IndexError`
on a too-short landmark list; the pipeline always passes 21 landmarks, so the
default is never reached on pipeline inputs. -/
def defaultLm : Landmark := { x := 0, y := 0, z := 0, visibility := 0 }

/-- `(base, mid, tip)` landmark index triples per finger
(`_get_finger_extension`, lines 108–114). -/
def fingerIndices : List (ℕ × ℕ × ℕ) :=
  [(1, 3, 4), (5, 7, 8), (9, 11, 12), (13, 15, 16), (17, 19, 20)]

/-- `_get_finger_extension`: per finger, 1 if the base-to-tip distance over the
summed segment distances exceeds 0.75, else 0. -/
def getFingerExtension (sq : ℚ → ℚ) (lms : List Landmark) : List ℕ :=
  fingerIndices.map (fun t =>
    let base := lms.getD t.1 defaultLm
    let mid := lms.getD t.2.1 defaultLm
    let tip := lms.getD t.2.2 defaultLm
    let fullDist := dist2d sq base tip
    let segmentDist := dist2d sq base mid + dist2d sq mid tip
    let extRat := fullDist / (segmentDist + 1 / 1000000)
    if extRat > 3 / 4 then 1 else 0)

/-- Fingertip landmark indices (`_calculate_hand_openness`, line 134). -/
def fingertipIndices : List ℕ := [4, 8, 12, 16, 20]

/-- All pairwise distances `dist tips[i] tips[j]` for `i < j`, in the order of
the double loop in `_calculate_hand_openness`. -/
def pairwiseDists (sq : ℚ → ℚ) : List Landmark → List ℚ
  | [] => []
  | p :: ps => ps.map (dist2d sq p) ++ pairwiseDists sq ps

/-- `np.mean` of a list of rationals. -/
def mean (l : List ℚ) : ℚ := l.sum / (l.length : ℚ)

/-- `_calculate_hand_openness`: mean pairwise fingertip distance, normalized by
200 px and clamped to at most 1. -/
def calcHandOpenness (sq : ℚ → ℚ) (lms : List Landmark) : ℚ :=
  let fingertips := fingertipIndices.map (fun i => lms.getD i defaultLm)
  let distances := pairwiseDists sq fingertips
  let avgDistance := if distances.isEmpty then 0 else mean distances
  min (avgDistance / 200) 1

/-- Result of `_calculate_features`: either the `insufficient_visibility` flag
or the computed finger-extension bits and hand openness. -/
inductive GeometryFeatures where
  | insufficientVisibility
  | ok (fingersExtended : List ℕ) (handOpenness : ℚ)
deriving Repr, DecidableEq

/-- Number of landmarks with visibility above 0.5
(`_calculate_features`, lines 91–94). -/
def visibleCount (lms : List Landmark) : ℕ :=
  (lms.filter (fun lm => lm.visibility > 1 / 2)).length

/-- `_calculate_features`: the insufficient-visibility flag when fewer than 15
landmarks are visible, else the geometric features. -/
def calcFeatures (sq : ℚ → ℚ) (lms : List Landmark) : GeometryFeatures :=
  if visibleCount lms < 15 then .insufficientVisibility
  else .ok (getFingerExtension sq lms) (calcHandOpenness sq lms)

/-- `_calculate_match_score`: mean of the finger-match fraction and the
openness-range scores present in the rule; 1.0 when the rule has no clauses. -/
def calcMatchScore (fingers : List ℕ) (openness : ℚ) (expected : SignRule) : ℚ :=
  let scores0 : List ℚ :=
    match expected.fingers_extended with
    | none => []
    | some ef =>
        let nMatch := ((ef.zip fingers).filter (fun p => p.1 = p.2)).length
        [(nMatch : ℚ) / 5]
  let scores1 : List ℚ :=
    match expected.hand_openness_min with
    | none => scores0
    | some mn => scores0 ++ [if openness ≥ mn then 1 else openness / mn]
  let scores2 : List ℚ :=
    match expected.hand_openness_max with
    | none => scores1
    | some mx => scores1 ++ [if openness ≤ mx then 1 else mx / openness]
  if scores2.isEmpty then 1 else mean scores2

/-- Python `str.upper()`: `String.toUpper` is not kernel-reducible (its
recursion is over byte positions), so uppercasing is modelled directly on the
character list, which is extensionally the same function. -/
def pyUpper (s : String) : String := ⟨s.data.map Char.toUpper⟩

/-- Python `str.strip()`: drop whitespace from both ends. -/
def pyStrip (s : String) : String :=
  ⟨((s.data.dropWhile (fun c => c.isWhitespace)).reverse.dropWhile
      (fun c => c.isWhitespace)).reverse⟩

/-- Return value of `validate_prediction`.  The source returns a dict; the
`features` key is present only on the full-validation path (`none` elsewhere). -/
structure ValidationResult where
  validated : Bool
  confidence : ℚ
  geometry_score : ℚ
  features : Option GeometryFeatures := none
  reason : String
deriving Repr, DecidableEq

/-- `GeometryValidator.validate_prediction` (lines 37–87): pass-through when
the uppercased label has no rule; a flat ×0.9 discount when visibility is
insufficient; otherwise confidence scaled by the geometric match score, with
`validated = score > 0.5`. -/
def validatePrediction (sq : ℚ → ℚ) (lms : List Landmark)
    (predictedLabel : String) (confidence : ℚ) : ValidationResult :=
  let labelUpper := pyUpper predictedLabel
  match signRules.lookup labelUpper with
  | none =>
      { validated := true, confidence := confidence, geometry_score := 1,
        reason := "No geometric rules defined" }
  | some expected =>
      match calcFeatures sq lms with
      | .insufficientVisibility =>
          { validated := true, confidence := confidence * (9 / 10),
            geometry_score := 9 / 10,
            reason := "Low visibility - skipping validation" }
      | .ok fingers openness =>
          let geometryScore := calcMatchScore fingers openness expected
          let isValid := geometryScore > 1 / 2
          { validated := isValid, confidence := confidence * geometryScore,
            geometry_score := geometryScore,
            features := some (.ok fingers openness),
            reason := if isValid then "Geometry match" else "Geometry mismatch" }

/-! ## Classification (`backend/accurate_sign_detector.py`) -/

/-- One entry of `AccurateSignDetector.models`. -/
structure RoboflowModel where
  id : String
  name : String
  descr : String
  color : String
  priority : ℕ
  boost : ℚ
deriving Repr, DecidableEq

/-- The single configured model (`__init__`, lines 41–50). -/
def bimModel : RoboflowModel :=
  { id := "bim-recognition-x7qsz/10", name := "BIM v10",
    descr := "Bahasa Isyarat Malaysia (Primary)", color := "#00FFD1",
    priority := 1, boost := 1 }

/-- `self.models`: the configured model list. -/
def theModels : List RoboflowModel := [bimModel]

/-- `self.min_sign_confidence = 0.15`. -/
def minSignConfidence : ℚ := 15 / 100

/-- `self.min_hand_confidence = 0.7`. -/
def minHandConfidence : ℚ := 7 / 10

/-- `self.malaysian_signs` (lines 57–76), verbatim. -/
def malaysianSigns : List String :=
  ["SAYA", "AWAK", "DIA", "KAMI", "MEREKA",
   "TOLONG", "TERIMA KASIH", "MAAF", "SELAMAT",
   "YA", "TIDAK", "BOLEH", "TAK BOLEH",
   "APA", "SIAPA", "BILA", "DI MANA", "MENGAPA", "BAGAIMANA",
   "NAMA", "UMUR", "KERJA", "RUMAH", "SEKOLAH",
   "MAKAN", "MINUM", "TIDUR", "BANGUN",
   "PAGI", "TENGAH HARI", "PETANG", "MALAM",
   "HARI INI", "SEMALAM", "ESOK",
   "BAIK", "TIDAK BAIK", "CANTIK", "HODOH",
   "BESAR", "KECIL", "PANJANG", "PENDEK",
   "MERAH", "BIRU", "HIJAU", "KUNING", "HITAM", "PUTIH",
   "SATU", "DUA", "TIGA", "EMPAT", "LIMA",
   "SELAMAT PAGI", "SELAMAT PETANG", "SELAMAT MALAM",
   "APA KHABAR", "SIHAT", "SAKIT",
   "LAPAR", "KENYANG", "HAUS",
   "PANAS", "SEJUK", "HUJAN"]

/-- The `false_positives` deny-list (`_classify_hand_sign`, lines 253–257). -/
def falsePositives : List String :=
  ["HEAR", "EAR", "NOISE", "BACKGROUND", "NONE", "NULL",
   "IMPORTANT", "ENGLISH", "AMERICAN", "BRITISH", "GENERAL",
   "COMMON", "BASIC", "SIMPLE", "STANDARD", "DEFAULT"]

/-- The `english_words` stop-word list (lines 260–265). -/
def englishWords : List String :=
  ["THE", "AND", "OR", "BUT", "IF", "THEN", "WHEN", "WHERE",
   "WHAT", "WHO", "WHY", "HOW", "CAN", "WILL", "WOULD", "SHOULD",
   "MUST", "MAY", "MIGHT", "COULD", "DO", "DOES", "DID", "HAVE",
   "HAS", "HAD", "IS", "ARE", "WAS", "WERE", "BE", "BEEN", "BEING"]

/-- One prediction returned by the external Roboflow service
(`cls` is the dict's `"class"` key, a reserved word in Lean). -/
structure Prediction where
  cls : String
  confidence : ℚ
deriving Repr, DecidableEq

/-- Running state of the model loop in `_classify_hand_sign` (lines 213–215):
best prediction so far, its ORIGINAL (unboosted) confidence, and its model. -/
structure LoopState where
  bestPrediction : Option Prediction
  bestConfidence : ℚ
  bestModel : Option RoboflowModel
deriving Repr, DecidableEq

/-- One iteration of the model loop (lines 218–243).  The iteration input is
the model together with the outcome of its `infer` call: `none` when the call
raised (caught and skipped), otherwise the prediction list.  Predictions below
`min_sign_confidence` are filtered out; the best survivor is compared
boost-adjusted against the stored original confidence of the current best. -/
def modelLoopStep (st : LoopState)
    (entry : RoboflowModel × Option (List Prediction)) : LoopState :=
  match entry.2 with
  | none => st
  | some preds =>
      if preds.isEmpty then st
      else
        let surviving := preds.filter (fun p => p.confidence ≥ minSignConfidence)
        match pyMaxBy (fun p => p.confidence) surviving with
        | none => st
        | some modelBest =>
            let adjusted := modelBest.confidence * entry.1.boost
            if adjusted > st.bestConfidence then
              { bestPrediction := some modelBest,
                bestConfidence := modelBest.confidence,
                bestModel := some entry.1 }
            else st

/-- The whole model loop, starting from `best_prediction = None`,
`best_confidence = 0`, `best_model = None`. -/
def modelLoop (results : List (RoboflowModel × Option (List Prediction))) : LoopState :=
  results.foldl modelLoopStep { bestPrediction := none, bestConfidence := 0, bestModel := none }

/-- Per-hand result of `_classify_hand_sign`: the success dict
(label, confidence, model name, color, hand, `is_malaysian`) or the failure
dict with its message. -/
inductive SignResult where
  | ok (label : String) (confidence : ℚ) (modelName : String) (color : String)
      (hand : String) (isMalaysian : Bool)
  | fail (message : String)
deriving Repr, DecidableEq

/-- The `'success'` field of the result dict. -/
def SignResult.success : SignResult → Bool
  | .ok _ _ _ _ _ _ => true
  | .fail _ => false

/-- The `'label'` field (empty on failure, where Python has no such key). -/
def SignResult.labelD : SignResult → String
  | .ok l _ _ _ _ _ => l
  | .fail _ => ""

/-- The `'confidence'` field (0 on failure, where Python has no such key). -/
def SignResult.confD : SignResult → ℚ
  | .ok _ c _ _ _ _ => c
  | .fail _ => 0

/-- The `'model_name'` field. -/
def SignResult.modelNameD : SignResult → String
  | .ok _ _ m _ _ _ => m
  | .fail _ => ""

/-- The `sign_result.get('color', '#00FFD1')` accessor used by `detect_signs`. -/
def SignResult.colorD : SignResult → String
  | .ok _ _ _ c _ _ => c
  | .fail _ => "#00FFD1"

/-- The `'hand'` field. -/
def SignResult.handD : SignResult → String
  | .ok _ _ _ _ h _ => h
  | .fail _ => ""

/-- `_classify_hand_sign` (lines 212–317), after the model loop: normalize the
best label (strip + uppercase), reject deny-listed / English labels, boost
Malaysian-vocabulary labels by ×1.15 capped at 1.0, then, when landmarks are
present on the bbox dict, blend in the geometry validation (×`geometry_score`
when validated, flat ×0.8 otherwise).

`bboxLandmarks` models `hand_bbox.get('landmarks')`.  In the shipped pipeline
the bbox dict built by `detect_hands` has no `'landmarks'` key, so the caller
always passes `none` and the validation branch is dead; it is embedded anyway,
faithful to the source. -/
def classifyHandSign (sq : ℚ → ℚ)
    (modelResults : List (RoboflowModel × Option (List Prediction)))
    (bboxLandmarks : Option (List Landmark)) (handLabel : String) : SignResult :=
  let st := modelLoop modelResults
  match st.bestPrediction, st.bestModel with
  | some bestPrediction, some bestModel =>
      let label := pyUpper (pyStrip bestPrediction.cls)
      if label ∈ falsePositives ∨ label ∈ englishWords then
        .fail ("Filtered non-Malaysian sign: " ++ label)
      else
        let boosted :=
          if label ∈ malaysianSigns then min (st.bestConfidence * (115 / 100)) 1
          else st.bestConfidence
        let finalConfidence :=
          match bboxLandmarks with
          | none => boosted
          | some lms =>
              let validation := validatePrediction sq lms label boosted
              if validation.validated then validation.confidence
              else boosted * (8 / 10)
        .ok label finalConfidence bestModel.name bestModel.color handLabel
          (decide (label ∈ malaysianSigns))
  | _, _ => .fail "No confident predictions from any model"

/-- One entry of the `bounding_boxes` list returned by `detect_signs`. -/
structure OutBox where
  x : ℚ
  y : ℚ
  width : ℤ
  height : ℤ
  cls : String
  confidence : ℚ
  color : String
  hand : String
  landmarks : List Landmark
deriving Repr, DecidableEq

/-- Box appended for a hand with a successful classification
(`detect_signs`, lines 136–146). -/
def mkSignBox (hd : HandDetection) (r : SignResult) : OutBox :=
  { x := hd.bbox.x, y := hd.bbox.y, width := hd.bbox.width, height := hd.bbox.height,
    cls := r.labelD, confidence := r.confD, color := r.colorD,
    hand := hd.hand_label, landmarks := hd.landmarks }

/-- Generic `'Hand'` box returned when no sign was classified
(`detect_signs`, lines 169–182). -/
def mkHandBox (hd : HandDetection) : OutBox :=
  { x := hd.bbox.x, y := hd.bbox.y, width := hd.bbox.width, height := hd.bbox.height,
    cls := "Hand", confidence := hd.confidence,
    color := if hd.hand_label = "Right" then "#00FF00" else "#0000FF",
    hand := hd.hand_label, landmarks := hd.landmarks }

/-- Overall result of `AccurateSignDetector.detect_signs` (timing and error
branches aside): no hands, hands but no confident sign, or the aggregated
success dict. -/
inductive DetectionOutcome where
  | noHands
  | noSign (boundingBoxes : List OutBox) (numHands : ℕ)
  | detected (label : String) (confidence : ℚ) (modelUsed : String) (hand : String)
      (boundingBoxes : List OutBox) (landmarks : List Landmark) (numHands : ℕ)
deriving Repr, DecidableEq

/-- The top-level `'confidence'` field of the outcome (0 where absent). -/
def DetectionOutcome.confD : DetectionOutcome → ℚ
  | .detected _ c _ _ _ _ _ => c
  | _ => 0

/-- `detect_signs` (lines 105–185), with the per-hand classification passed in
as a function: classify each detected hand in order, keep the successful
results, pick the highest-confidence one with Python `max` (first on ties), and
take the top-level `landmarks` field from `hand_detections[0]`. -/
def detectSigns (hands : List HandDetection)
    (classify : HandDetection → SignResult) : DetectionOutcome :=
  match hands with
  | [] => .noHands
  | h0 :: rest =>
      let pairs := (h0 :: rest).map (fun hd => (hd, classify hd))
      let okPairs := pairs.filter (fun p => p.2.success)
      match pyMaxBy (fun p => p.2.confD) okPairs with
      | some best =>
          .detected best.2.labelD best.2.confD best.2.modelNameD best.2.handD
            (okPairs.map (fun p => mkSignBox p.1 p.2))
            h0.landmarks (h0 :: rest).length
      | none => .noSign ((h0 :: rest).map mkHandBox) (h0 :: rest).length

/-! ## Detection cache (`backend/hybrid_detector.py`) -/

/-- One value of `self.detection_cache`: the stored result snapshot and the
insertion timestamp (`_cache_result`, lines 214–218). -/
structure CacheEntry (α : Type) where
  result : α
  timestamp : ℚ
deriving Repr, DecidableEq

/-- `self.cache_ttl = 2.0`. -/
def cacheTTL : ℚ := 2

/-- `self.max_cache_size = 50`. -/
def maxCacheSize : ℕ := 50

/-- A Python dict as an association list in insertion order (Python dicts
iterate in insertion order, which `sorted` consumes). -/
abbrev Cache (α : Type) : Type := List (String × CacheEntry α)

/-- Python dict assignment `d[k] = e`: update in place when the key exists,
else append. -/
def dictInsert {α : Type} (k : String) (e : CacheEntry α) :
    Cache α → Cache α
  | [] => [(k, e)]
  | kv :: rest => if kv.1 = k then (k, e) :: rest else kv :: dictInsert k e rest

/-- Stable insertion of an entry into a timestamp-sorted list, before any entry
with a strictly larger timestamp and after earlier-listed equal ones. -/
def insertByTime {α : Type} (e : String × CacheEntry α) :
    Cache α → Cache α
  | [] => [e]
  | x :: xs =>
      if e.2.timestamp ≤ x.2.timestamp then e :: x :: xs
      else x :: insertByTime e xs

/-- Stable sort by insertion timestamp, modelling
`sorted(keys, key=lambda k: cache[k]['timestamp'])`. -/
def sortByTime {α : Type} : Cache α → Cache α
  | [] => []
  | x :: xs => insertByTime x (sortByTime xs)

/-- `_get_cached_result` (lines 188–200): a hit strictly within the TTL
window, a miss (with deletion of the stale entry) once the TTL has elapsed.
Returns the result together with the possibly-updated cache. -/
def getCachedResult {α : Type} (cache : Cache α) (imageHash : String)
    (now : ℚ) : Option α × Cache α :=
  match cache.lookup imageHash with
  | none => (none, cache)
  | some entry =>
      if now - entry.timestamp < cacheTTL then (some entry.result, cache)
      else (none, cache.eraseP (fun kv => kv.1 == imageHash))

/-- `_cache_result` (lines 202–218): when the cache has reached
`max_cache_size`, delete the 10 entries oldest by timestamp, then store the
new entry under its hash (a shallow copy in the source; stored by value here). -/
def cacheResult {α : Type} (cache : Cache α) (imageHash : String)
    (result : α) (now : ℚ) : Cache α :=
  let cache1 :=
    if maxCacheSize ≤ cache.length then
      let oldestKeys := ((sortByTime cache).take 10).map (fun kv => kv.1)
      cache.filter (fun kv => !(oldestKeys.contains kv.1))
    else cache
  dictInsert imageHash { result := result, timestamp := now } cache1

/-- Folding a sequence of insertions `(key, result, time)` into an initially
empty cache, the setting of the cache-eviction claim. -/
def foldInsert {α : Type} (ins : List (String × α × ℚ)) : Cache α :=
  ins.foldl (fun c i => cacheResult c i.1 i.2.1 i.2.2) []

/-! ## Cropping (`hand_detector.crop_hand_region` and
`hybrid_detector._crop_to_hand_region`) -/

/-- A single-channel abstraction of a numpy image: dimensions plus pixel
content (`px r c` = the pixel at row `r`, column `c`). -/
structure Img where
  rows : ℕ
  cols : ℕ
  px : ℕ → ℕ → ℕ

/-- `np.zeros((t, t, 3), dtype=np.uint8)`: the all-black square image. -/
def zerosImg (t : ℕ) : Img := { rows := t, cols := t, px := fun _ _ => 0 }

/-- Numpy slicing `image[y0:y1, x0:x1]` for nonnegative bounds: indices are
clamped to the array extent, so the result can be empty but never errors. -/
def cropSlice (img : Img) (y0 y1 x0 x1 : ℕ) : Img :=
  { rows := min y1 img.rows - min y0 img.rows,
    cols := min x1 img.cols - min x0 img.cols,
    px := fun i j => img.px (min y0 img.rows + i) (min x0 img.cols + j) }

/-- `cv2.resize`: an image of the target dimensions.  The claims depend only
on the output dimensions, so the interpolated content is abstracted as index
sampling rather than `INTER_AREA` averaging. -/
def resizeImg (img : Img) (tw th : ℕ) : Img :=
  { rows := th, cols := tw,
    px := fun i j => img.px (i * img.rows / th) (j * img.cols / tw) }

/-- `hand_detector.crop_hand_region` (lines 146–171): crop to the bbox corners
and resize to 320×320, or return the black 320×320 placeholder when the crop
is empty.  The corner fields are cast to `ℕ` via `toNat`; the boxes produced
by `detect_hands` have nonnegative corners (clamped at 0), where `toNat` is
the identity. -/
def cropHandRegion (img : Img) (b : BBox) : Img :=
  let cropped := cropSlice img b.y_min.toNat b.y_max.toNat b.x_min.toNat b.x_max.toNat
  if 0 < cropped.rows ∧ 0 < cropped.cols then resizeImg cropped 320 320
  else zerosImg 320

/-- `hybrid_detector._crop_to_hand_region` (lines 170–179): crop to the
`(x, y, w, h)` box and resize to 224×224 unconditionally.  `cv2.resize`
raises `cv2.error` on an empty source image, modelled as `none`: this path
has no zero-area guard. -/
def cropToHandRegion (img : Img) (bbox : ℕ × ℕ × ℕ × ℕ) : Option Img :=
  match bbox with
  | (x, y, w, h) =>
      let cropped := cropSlice img y (y + h) x (x + w)
      if 0 < cropped.rows ∧ 0 < cropped.cols then some (resizeImg cropped 224 224)
      else none

/-! ## Basic lemmas -/

theorem pyInt_nonneg {q : ℚ} (h : 0 ≤ q) : 0 ≤ pyInt q := by
  unfold pyInt
  rw [if_neg (not_lt.mpr h)]
  exact Int.le_floor.mpr (by exact_mod_cast h)

theorem pyInt_mono {q r : ℚ} (h : q ≤ r) : pyInt q ≤ pyInt r := by
  unfold pyInt
  by_cases hq : q < 0
  · by_cases hr : r < 0
    · rw [if_pos hq, if_pos hr]; exact Int.ceil_mono h
    · rw [if_pos hq, if_neg hr]
      have h1 : ⌈q⌉ ≤ 0 := Int.ceil_le.mpr (by exact_mod_cast hq.le)
      have h2 : (0 : ℤ) ≤ ⌊r⌋ := Int.le_floor.mpr (by exact_mod_cast not_lt.mp hr)
      omega
  · have hr : ¬ r < 0 := fun hr => hq (lt_of_le_of_lt h hr)
    rw [if_neg hq, if_neg hr]
    exact Int.floor_mono h

theorem pyInt_le_intCast {q : ℚ} {n : ℤ} (h : q ≤ (n : ℚ)) : pyInt q ≤ n := by
  unfold pyInt
  by_cases hq : q < 0
  · rw [if_pos hq]; exact Int.ceil_le.mpr h
  · rw [if_neg hq]
    calc ⌊q⌋ ≤ ⌊(n : ℚ)⌋ := Int.floor_mono h
      _ = n := Int.floor_intCast n

theorem foldl_min_le_seed (l : List ℚ) : ∀ b : ℚ, l.foldl min b ≤ b := by
  induction l with
  | nil => intro b; simp
  | cons x xs ih =>
      intro b
      calc xs.foldl min (min b x) ≤ min b x := ih _
        _ ≤ b := min_le_left _ _

theorem le_foldl_max (l : List ℚ) : ∀ b : ℚ, b ≤ l.foldl max b := by
  induction l with
  | nil => intro b; simp
  | cons x xs ih =>
      intro b
      calc b ≤ max b x := le_max_left _ _
        _ ≤ xs.foldl max (max b x) := ih _

theorem le_foldl_min (l : List ℚ) (c : ℚ) (hl : ∀ x ∈ l, c ≤ x) :
    ∀ b : ℚ, c ≤ b → c ≤ l.foldl min b := by
  induction l with
  | nil => intro b hb; simpa using hb
  | cons x xs ih =>
      intro b hb
      exact ih (fun y hy => hl y (List.mem_cons_of_mem _ hy)) (min b x)
        (le_min hb (hl x (List.mem_cons_self _ _)))

theorem foldl_max_le (l : List ℚ) (c : ℚ) (hl : ∀ x ∈ l, x ≤ c) :
    ∀ b : ℚ, b ≤ c → l.foldl max b ≤ c := by
  induction l with
  | nil => intro b hb; simpa using hb
  | cons x xs ih =>
      intro b hb
      exact ih (fun y hy => hl y (List.mem_cons_of_mem _ hy)) (max b x)
        (max_le hb (hl x (List.mem_cons_self _ _)))

theorem listMin_le_listMax {x : ℚ} {xs : List ℚ} :
    listMin (x :: xs) ≤ listMax (x :: xs) :=
  le_trans (foldl_min_le_seed xs x) (le_foldl_max xs x)

/-- Corner facts feeding the bounding-box bounds: with all pixel coordinates
in `[0, bound]`, the truncated min and max satisfy
`0 ≤ min ≤ max ≤ bound`. -/
theorem corner_facts (bound : ℕ) (coords : List ℚ) (hne : coords ≠ [])
    (hall : ∀ q ∈ coords, 0 ≤ q ∧ q ≤ (bound : ℚ)) :
    0 ≤ pyInt (listMin coords) ∧
    pyInt (listMin coords) ≤ pyInt (listMax coords) ∧
    pyInt (listMax coords) ≤ (bound : ℤ) := by
  obtain ⟨c, cs, rfl⟩ := List.exists_cons_of_ne_nil hne
  refine ⟨?_, pyInt_mono listMin_le_listMax, ?_⟩
  · apply pyInt_nonneg
    exact le_foldl_min cs 0 (fun y hy => (hall y (List.mem_cons_of_mem _ hy)).1) c
      (hall c (List.mem_cons_self _ _)).1
  · apply pyInt_le_intCast
    have h2 : listMax (c :: cs) ≤ (bound : ℚ) :=
      foldl_max_le cs (bound : ℚ) (fun y hy => (hall y (List.mem_cons_of_mem _ hy)).2) c
        (hall c (List.mem_cons_self _ _)).2
    exact_mod_cast h2

/-- Bounds for the bbox built by `detect_hands` from one hand, assuming
normalized landmark coordinates in `[0,1]` and at least one landmark. -/
theorem handBBox_bounds (w h : ℕ) (lms : List Landmark) (hne : lms ≠ [])
    (hb : ∀ lm ∈ lms, 0 ≤ lm.x ∧ lm.x ≤ 1 ∧ 0 ≤ lm.y ∧ lm.y ≤ 1) :
    0 ≤ (handBBox w h lms).x_min ∧
    (handBBox w h lms).x_min ≤ (handBBox w h lms).x_max ∧
    (handBBox w h lms).x_max ≤ (w : ℤ) ∧
    0 ≤ (handBBox w h lms).y_min ∧
    (handBBox w h lms).y_min ≤ (handBBox w h lms).y_max ∧
    (handBBox w h lms).y_max ≤ (h : ℤ) := by
  have hmapne : ∀ f : Landmark → ℚ, lms.map f ≠ [] := by
    intro f hnil
    exact hne (List.map_eq_nil_iff.mp hnil)
  have hx := corner_facts w (lms.map (fun lm => lm.x * (w : ℚ))) (hmapne _) ?_
  · have hy := corner_facts h (lms.map (fun lm => lm.y * (h : ℚ))) (hmapne _) ?_
    · obtain ⟨hx0, hx1, hx2⟩ := hx
      obtain ⟨hy0, hy1, hy2⟩ := hy
      have hpx : 0 ≤ pyInt ((((pyInt (listMax (lms.map (fun lm => lm.x * (w : ℚ))))) : ℚ) -
          ((pyInt (listMin (lms.map (fun lm => lm.x * (w : ℚ))))) : ℚ)) * (2 / 10)) := by
        apply pyInt_nonneg
        have : (0 : ℚ) ≤ ((pyInt (listMax (lms.map (fun lm => lm.x * (w : ℚ))))) : ℚ) -
            ((pyInt (listMin (lms.map (fun lm => lm.x * (w : ℚ))))) : ℚ) := by
          rw [sub_nonneg]
          exact_mod_cast hx1
        positivity
      have hpy : 0 ≤ pyInt ((((pyInt (listMax (lms.map (fun lm => lm.y * (h : ℚ))))) : ℚ) -
          ((pyInt (listMin (lms.map (fun lm => lm.y * (h : ℚ))))) : ℚ)) * (2 / 10)) := by
        apply pyInt_nonneg
        have : (0 : ℚ) ≤ ((pyInt (listMax (lms.map (fun lm => lm.y * (h : ℚ))))) : ℚ) -
            ((pyInt (listMin (lms.map (fun lm => lm.y * (h : ℚ))))) : ℚ) := by
          rw [sub_nonneg]
          exact_mod_cast hy1
        positivity
      simp only [handBBox]
      refine ⟨?_, ?_, ?_, ?_, ?_, ?_⟩ <;> omega
    · intro q hq
      obtain ⟨lm, hlm, rfl⟩ := List.mem_map.mp hq
      obtain ⟨_, _, h3, h4⟩ := hb lm hlm
      constructor
      · positivity
      · calc lm.y * (h : ℚ) ≤ 1 * (h : ℚ) := by
              apply mul_le_mul_of_nonneg_right h4 (by positivity)
          _ = (h : ℚ) := one_mul _
  · intro q hq
    obtain ⟨lm, hlm, rfl⟩ := List.mem_map.mp hq
    obtain ⟨h1, h2, _, _⟩ := hb lm hlm
    constructor
    · positivity
    · calc lm.x * (w : ℚ) ≤ 1 * (w : ℚ) := by
            apply mul_le_mul_of_nonneg_right h2 (by positivity)
        _ = (w : ℚ) := one_mul _

/-! ## Claim C2: bounding boxes after padding and clamping -/

/-- A hand whose 21 landmarks all sit at the normalized point (0.5, 0.5): the
derived unpadded box has zero extent, the padding is zero, and the clamped box
has `x_min = x_max` and `y_min = y_max`. -/
def c2RawHand : RawHand :=
  { category := "Right", score := 9 / 10,
    lms := List.replicate 21 { x := 1 / 2, y := 1 / 2, z := 0, visibility := 1 } }

/-- C2, counterexample: on a 100×100 image, `detect_hands` returns exactly one
detection for `c2RawHand`, and its bounding box violates the claimed STRICT
inequality `x_min < x_max` (both corners are 50). -/
theorem C2_counterexample :
    (detectHands 100 100 [c2RawHand]).map
      (fun d => (d.bbox.x_min, d.bbox.x_max, decide (d.bbox.x_min < d.bbox.x_max)))
      = [(50, 50, false)] := by
  norm_num [detectHands, c2RawHand, handBBox, pixelLandmarks, listMin, listMax,
    pyInt, List.replicate, List.foldl, min_def, max_def]

/-- C2 (amended): for every hand detection returned by `detect_hands` on an
image of width `w` and height `h`, with the external model's normalized
landmark coordinates in `[0,1]` and at least one landmark per hand, the padded
and clamped bounding box satisfies `0 ≤ x_min ≤ x_max ≤ w` and
`0 ≤ y_min ≤ y_max ≤ h`; the inequality between min and max corners is
non-strict (`C2_counterexample` shows it cannot be strict in general). -/
theorem C2_bbox_within_bounds (w h : ℕ) (raws : List RawHand) (d : HandDetection)
    (hmem : d ∈ detectHands w h raws)
    (hwf : ∀ rh ∈ raws, rh.lms ≠ [] ∧ ∀ lm ∈ rh.lms,
      0 ≤ lm.x ∧ lm.x ≤ 1 ∧ 0 ≤ lm.y ∧ lm.y ≤ 1) :
    0 ≤ d.bbox.x_min ∧ d.bbox.x_min ≤ d.bbox.x_max ∧ d.bbox.x_max ≤ (w : ℤ) ∧
    0 ≤ d.bbox.y_min ∧ d.bbox.y_min ≤ d.bbox.y_max ∧ d.bbox.y_max ≤ (h : ℤ) := by
  obtain ⟨rh, hrh, rfl⟩ := List.mem_map.mp hmem
  obtain ⟨hne, hb⟩ := hwf rh hrh
  exact handBBox_bounds w h rh.lms hne hb

/-- A concrete two-landmark hand used as the witness input for C2. -/
def c2WitnessRaw : RawHand :=
  { category := "Left", score := 8 / 10,
    lms := [{ x := 1 / 4, y := 1 / 3, z := 0, visibility := 1 },
            { x := 3 / 4, y := 2 / 3, z := 0, visibility := 1 }] }

/-- Witness for `C2_bbox_within_bounds` at a concrete hand on a 640×480
image. -/
theorem C2_bbox_within_bounds_witness :
    (detectHands 640 480 [c2WitnessRaw]).headI ∈ detectHands 640 480 [c2WitnessRaw] ∧
    (0 ≤ ((detectHands 640 480 [c2WitnessRaw]).headI).bbox.x_min ∧
     ((detectHands 640 480 [c2WitnessRaw]).headI).bbox.x_min ≤
       ((detectHands 640 480 [c2WitnessRaw]).headI).bbox.x_max ∧
     ((detectHands 640 480 [c2WitnessRaw]).headI).bbox.x_max ≤ (640 : ℤ) ∧
     0 ≤ ((detectHands 640 480 [c2WitnessRaw]).headI).bbox.y_min ∧
     ((detectHands 640 480 [c2WitnessRaw]).headI).bbox.y_min ≤
       ((detectHands 640 480 [c2WitnessRaw]).headI).bbox.y_max ∧
     ((detectHands 640 480 [c2WitnessRaw]).headI).bbox.y_max ≤ (480 : ℤ)) := by
  have hmem : (detectHands 640 480 [c2WitnessRaw]).headI ∈
      detectHands 640 480 [c2WitnessRaw] := by
    simp [detectHands]
  have hwf : ∀ rh ∈ [c2WitnessRaw], rh.lms ≠ [] ∧ ∀ lm ∈ rh.lms,
      0 ≤ lm.x ∧ lm.x ≤ 1 ∧ 0 ≤ lm.y ∧ lm.y ≤ 1 := by
    intro rh hrh
    rw [List.mem_singleton] at hrh
    subst hrh
    refine ⟨by simp [c2WitnessRaw], ?_⟩
    intro lm hlm
    simp only [c2WitnessRaw, List.mem_cons, List.mem_singleton,
      List.not_mem_nil, or_false] at hlm
    rcases hlm with rfl | rfl <;> norm_num
  exact ⟨hmem, C2_bbox_within_bounds 640 480 [c2WitnessRaw] _ hmem hwf⟩

/-! ## Claims C4 and C5: validator pass-through and low-visibility paths -/

/-- Square-root stand-in for concrete inputs whose every queried distance
argument is 0 (coincident landmarks): agrees with `np.sqrt` at 0. -/
def zeroSqrt : ℚ → ℚ := fun _ => 0

/-- 21 coincident, fully visible landmarks. -/
def c4Landmarks : List Landmark :=
  List.replicate 21 { x := 0, y := 0, z := 0, visibility := 1 }

/-- 21 landmarks with visibility 0: fewer than 15 are visible. -/
def c5Landmarks : List Landmark :=
  List.replicate 21 { x := 0, y := 0, z := 0, visibility := 0 }

theorem getD_replicate {α : Type} (a d : α) {n i : ℕ} (h : i < n) :
    (List.replicate n a).getD i d = a := by
  induction n generalizing i with
  | zero => omega
  | succ n ih =>
      cases i with
      | zero => rfl
      | succ i => simpa [List.replicate] using ih (by omega)

/-- The no-rule branch of `validate_prediction` (lines 53–59): untouched
confidence and a unit geometry score. -/
theorem validate_noRule (sq : ℚ → ℚ) (lms : List Landmark) (label : String)
    (conf : ℚ) (h : signRules.lookup (pyUpper label) = none) :
    validatePrediction sq lms label conf =
      { validated := true, confidence := conf, geometry_score := 1,
        features := none, reason := "No geometric rules defined" } := by
  unfold validatePrediction
  dsimp only
  rw [h]

/-- The insufficient-visibility branch of `validate_prediction`
(lines 63–69): reached only when the uppercased label HAS a rule. -/
theorem validate_lowVisibility (sq : ℚ → ℚ) (lms : List Landmark)
    (label : String) (conf : ℚ) (rule : SignRule)
    (hr : signRules.lookup (pyUpper label) = some rule)
    (hv : visibleCount lms < 15) :
    validatePrediction sq lms label conf =
      { validated := true, confidence := conf * (9 / 10), geometry_score := 9 / 10,
        features := none, reason := "Low visibility - skipping validation" } := by
  unfold validatePrediction
  dsimp only
  rw [hr]
  unfold calcFeatures
  rw [if_pos hv]

/-- C4, counterexample: `"tolong"` is not literally present in the geometry
rule table (whose keys are uppercase), yet `validate_prediction` is not a
pass-through on it: the lookup uppercases the label first, finds the TOLONG
rule, and on coincident landmarks returns `validated = false`,
`geometry_score = 0`, and the confidence rescaled to 0 instead of unchanged. -/
theorem C4_counterexample :
    "tolong" ∉ signRules.map Prod.fst ∧
    (validatePrediction zeroSqrt c4Landmarks "tolong" (1 / 2)).validated = false ∧
    (validatePrediction zeroSqrt c4Landmarks "tolong" (1 / 2)).geometry_score = 0 ∧
    (validatePrediction zeroSqrt c4Landmarks "tolong" (1 / 2)).confidence = 0 := by
  have hup : pyUpper "tolong" = "TOLONG" := by decide
  have heval : validatePrediction zeroSqrt c4Landmarks "tolong" (1 / 2) =
      { validated := false, confidence := 0, geometry_score := 0,
        features := some (.ok [0, 0, 0, 0, 0] 0), reason := "Geometry mismatch" } := by
    unfold validatePrediction
    dsimp only
    rw [hup]
    norm_num [signRules, List.lookup, calcFeatures, visibleCount, c4Landmarks,
      List.replicate, getFingerExtension, fingerIndices, getD_replicate, dist2d,
      zeroSqrt, calcHandOpenness, fingertipIndices, pairwiseDists, mean,
      calcMatchScore, min_def]
  refine ⟨by decide, ?_, ?_, ?_⟩ <;> rw [heval]

/-- C4 (amended): for every label whose UPPERCASED form is not a key of the
geometry rule table, and every landmark list and confidence,
`validate_prediction` returns `validated = true`, `geometry_score = 1.0`, and
the confidence unchanged.  The lookup is on the uppercased label, so a label
such as `"tolong"`, although itself absent from the table, is rule-checked
rather than passed through (`C4_counterexample`). -/
theorem C4_no_rule_pass_through (sq : ℚ → ℚ) (lms : List Landmark)
    (label : String) (conf : ℚ)
    (h : signRules.lookup (pyUpper label) = none) :
    validatePrediction sq lms label conf =
      { validated := true, confidence := conf, geometry_score := 1,
        features := none, reason := "No geometric rules defined" } :=
  validate_noRule sq lms label conf h

/-- Witness for `C4_no_rule_pass_through`: the label `"MAKAN"` has no rule. -/
theorem C4_no_rule_pass_through_witness :
    signRules.lookup (pyUpper "MAKAN") = none ∧
    validatePrediction zeroSqrt c5Landmarks "MAKAN" (4 / 5) =
      { validated := true, confidence := 4 / 5, geometry_score := 1,
        features := none, reason := "No geometric rules defined" } :=
  ⟨by decide, C4_no_rule_pass_through zeroSqrt c5Landmarks "MAKAN" (4 / 5) (by decide)⟩

/-- C5, counterexample: for the label `"MAKAN"` (no rule in the table) and
landmarks with fewer than 15 of 21 visible, `validate_prediction` does NOT
multiply the confidence by 0.9: the no-rule check precedes the visibility
check, so the confidence comes back unchanged (0.8, not 0.72). -/
theorem C5_counterexample :
    visibleCount c5Landmarks < 15 ∧
    (validatePrediction zeroSqrt c5Landmarks "MAKAN" (4 / 5)).confidence = 4 / 5 ∧
    (validatePrediction zeroSqrt c5Landmarks "MAKAN" (4 / 5)).confidence ≠
      (4 / 5) * (9 / 10) := by
  have heval := validate_noRule zeroSqrt c5Landmarks "MAKAN" (4 / 5) (by decide)
  refine ⟨?_, by rw [heval], by rw [heval]; norm_num⟩
  norm_num [visibleCount, c5Landmarks, List.replicate]

/-- C5 (amended): for every predicted label whose uppercased form IS present
in the rule table, and every landmark list in which fewer than 15 landmarks
have visibility above 0.5, `validate_prediction` returns `validated = true`
with the confidence multiplied by 0.9 and `geometry_score = 0.9`, skipping the
geometric match computation (the result is independent of the square root and
of the landmark coordinates).  For labels without a rule the no-rule
pass-through fires first and the confidence is unchanged
(`C5_counterexample`). -/
theorem C5_low_visibility_discount (sq : ℚ → ℚ) (lms : List Landmark)
    (label : String) (conf : ℚ) (rule : SignRule)
    (hr : signRules.lookup (pyUpper label) = some rule)
    (hv : visibleCount lms < 15) :
    validatePrediction sq lms label conf =
      { validated := true, confidence := conf * (9 / 10), geometry_score := 9 / 10,
        features := none, reason := "Low visibility - skipping validation" } :=
  validate_lowVisibility sq lms label conf rule hr hv

/-- The SAYA rule, used to witness `C5_low_visibility_discount`. -/
def sayaRule : SignRule :=
  { fingers_extended := some [0, 1, 0, 0, 0],
    hand_openness_min := none, hand_openness_max := none }

/-- Witness for `C5_low_visibility_discount` at the label `"SAYA"` with all
21 landmarks invisible and confidence 0.8. -/
theorem C5_low_visibility_discount_witness :
    signRules.lookup (pyUpper "SAYA") = some sayaRule ∧
    visibleCount c5Landmarks < 15 ∧
    validatePrediction zeroSqrt c5Landmarks "SAYA" (4 / 5) =
      { validated := true, confidence := (4 / 5) * (9 / 10), geometry_score := 9 / 10,
        features := none, reason := "Low visibility - skipping validation" } := by
  have hv : visibleCount c5Landmarks < 15 := by
    norm_num [visibleCount, c5Landmarks, List.replicate]
  exact ⟨by decide, hv,
    C5_low_visibility_discount zeroSqrt c5Landmarks "SAYA" (4 / 5) sayaRule (by decide) hv⟩

/-! ## First-maximum characterization of Python `max` -/

theorem pyFold_cons {α : Type} (key : α → ℚ) (b a : α) (l : List α) :
    pyFold key b (a :: l) = pyFold key (if key b < key a then a else b) l := rfl

/-- `pyFold` characterization: either nothing in the list strictly beats the
seed and the seed is returned, or the result splits the list into a
strictly-smaller prefix, the result itself, and a no-larger suffix. -/
theorem pyFold_spec {α : Type} (key : α → ℚ) :
    ∀ (l : List α) (b : α),
      (pyFold key b l = b ∧ ∀ x ∈ l, key x ≤ key b) ∨
      (∃ l1 l2, l = l1 ++ pyFold key b l :: l2 ∧ key b < key (pyFold key b l) ∧
        (∀ x ∈ l1, key x < key (pyFold key b l)) ∧
        (∀ x ∈ l2, key x ≤ key (pyFold key b l))) := by
  intro l
  induction l with
  | nil =>
      intro b
      exact Or.inl ⟨rfl, by intro x hx; cases hx⟩
  | cons a l ih =>
      intro b
      rw [pyFold_cons]
      by_cases hba : key b < key a
      · rw [if_pos hba]
        rcases ih a with ⟨heq, hb⟩ | ⟨l1, l2, hsplit, hlt, hpre, hsuf⟩
        · refine Or.inr ⟨[], l, ?_, ?_, ?_, ?_⟩
          · rw [heq]; rfl
          · rw [heq]; exact hba
          · intro x hx; cases hx
          · rw [heq]; exact hb
        · refine Or.inr ⟨a :: l1, l2, ?_, hba.trans hlt, ?_, hsuf⟩
          · rw [List.cons_append, ← hsplit]
          · intro x hx
            rcases List.mem_cons.mp hx with rfl | hx
            · exact hlt
            · exact hpre x hx
      · rw [if_neg hba]
        rcases ih b with ⟨heq, hb⟩ | ⟨l1, l2, hsplit, hlt, hpre, hsuf⟩
        · refine Or.inl ⟨heq, ?_⟩
          intro x hx
          rcases List.mem_cons.mp hx with rfl | hx
          · exact not_lt.mp hba
          · exact hb x hx
        · refine Or.inr ⟨a :: l1, l2, ?_, hlt, ?_, hsuf⟩
          · rw [List.cons_append, ← hsplit]
          · intro x hx
            rcases List.mem_cons.mp hx with rfl | hx
            · exact (not_lt.mp hba).trans_lt hlt
            · exact hpre x hx

/-- Python `max(lst, key=key)` returns the FIRST element attaining the
maximal key: everything before it in the list has a strictly smaller key,
everything after it a key no larger. -/
theorem pyMaxBy_spec {α : Type} (key : α → ℚ) {l : List α} {r : α}
    (h : pyMaxBy key l = some r) :
    ∃ l1 l2, l = l1 ++ r :: l2 ∧ (∀ x ∈ l1, key x < key r) ∧
      (∀ x ∈ l2, key x ≤ key r) := by
  match l with
  | [] => cases h
  | x :: xs =>
      have hr : pyFold key x xs = r := Option.some.inj h
      rcases pyFold_spec key xs x with ⟨heq, hb⟩ | ⟨l1, l2, hsplit, hlt, hpre, hsuf⟩
      · have hrx : r = x := by rw [← hr, heq]
        subst hrx
        refine ⟨[], xs, by rw [List.nil_append], ?_, ?_⟩
        · intro y hy
          cases hy
        · intro y hy
          exact hb y hy
      · rw [hr] at hsplit hlt hpre hsuf
        refine ⟨x :: l1, l2, by rw [hsplit, List.cons_append], ?_, hsuf⟩
        intro y hy
        rcases List.mem_cons.mp hy with rfl | hy2
        · exact hlt
        · exact hpre y hy2

/-- The element Python `max` returns is in the list. -/
theorem pyMaxBy_mem {α : Type} (key : α → ℚ) {l : List α} {r : α}
    (h : pyMaxBy key l = some r) : r ∈ l := by
  obtain ⟨l1, l2, hsplit, _, _⟩ := pyMaxBy_spec key h
  rw [hsplit]
  exact List.mem_append_right l1 (List.mem_cons_self _ _)

/-! ## Confidence bounds (claim C1) -/

theorem mean_nonneg (l : List ℚ) (h : ∀ x ∈ l, 0 ≤ x) : 0 ≤ mean l :=
  div_nonneg (List.sum_nonneg h) (by positivity)

theorem mean_le_one (l : List ℚ) (hne : l ≠ []) (h : ∀ x ∈ l, x ≤ 1) :
    mean l ≤ 1 := by
  unfold mean
  have hpos : (0 : ℚ) < (l.length : ℚ) := by
    have := List.length_pos.mpr hne
    exact_mod_cast this
  rw [div_le_one hpos]
  have := List.sum_le_card_nsmul l 1 h
  simpa using this

/-- The guarded mean `np.mean(scores) if scores else 1.0` stays within `[0,1]`
when every score does. -/
theorem mean_unit_of_all (l : List ℚ) (h : ∀ x ∈ l, 0 ≤ x ∧ x ≤ 1) :
    0 ≤ (if l.isEmpty then (1 : ℚ) else mean l) ∧
    (if l.isEmpty then (1 : ℚ) else mean l) ≤ 1 := by
  by_cases hl : l.isEmpty
  · rw [if_pos hl]
    norm_num
  · rw [if_neg hl]
    have hne : l ≠ [] := by
      intro hcontra
      exact hl (by rw [hcontra]; rfl)
    exact ⟨mean_nonneg l (fun x hx => (h x hx).1),
      mean_le_one l hne (fun x hx => (h x hx).2)⟩

/-- Well-formedness of the five table rules: finger patterns have length 5 and
openness bounds are strictly positive. -/
theorem signRules_wf : ∀ kv ∈ signRules,
    (∀ ef, kv.2.fingers_extended = some ef → ef.length = 5) ∧
    (∀ mn, kv.2.hand_openness_min = some mn → 0 < mn) ∧
    (∀ mx, kv.2.hand_openness_max = some mx → 0 < mx) := by
  intro kv hkv
  simp only [signRules, List.mem_cons, List.not_mem_nil, or_false] at hkv
  rcases hkv with rfl | rfl | rfl | rfl | rfl <;>
    refine ⟨?_, ?_, ?_⟩ <;> intro v hv <;> cases hv <;> first | rfl | norm_num

/-- A successful association-list lookup yields a member pair. -/
theorem mem_of_lookup_eq_some {β : Type} {k : String} {v : β} :
    ∀ {l : List (String × β)}, l.lookup k = some v → (k, v) ∈ l := by
  intro l
  induction l with
  | nil => intro h; cases h
  | cons kv rest ih =>
      intro h
      obtain ⟨k1, v1⟩ := kv
      rw [List.lookup] at h
      by_cases hk : k == k1
      · rw [hk] at h
        dsimp only at h
        have hk2 : k = k1 := eq_of_beq hk
        have hv2 : v1 = v := Option.some.inj h
        subst hk2
        subst hv2
        exact List.mem_cons_self _ _
      · rw [Bool.not_eq_true] at hk
        rw [hk] at h
        dsimp only at h
        exact List.mem_cons_of_mem _ (ih h)

/-- Every distance produced by `pairwiseDists` is a square-root value, hence
nonnegative when the square root is. -/
theorem pairwiseDists_nonneg (sq : ℚ → ℚ) (hsq : ∀ q, 0 ≤ sq q) :
    ∀ (tips : List Landmark), ∀ d ∈ pairwiseDists sq tips, 0 ≤ d := by
  intro tips
  induction tips with
  | nil => intro d hd; cases hd
  | cons p ps ih =>
      intro d hd
      rw [pairwiseDists] at hd
      rcases List.mem_append.mp hd with hd | hd
      · obtain ⟨q, _, rfl⟩ := List.mem_map.mp hd
        exact hsq _
      · exact ih d hd

/-- Hand openness stays within `[0,1]` for a nonnegative square root. -/
theorem calcHandOpenness_unit (sq : ℚ → ℚ) (hsq : ∀ q, 0 ≤ sq q)
    (lms : List Landmark) :
    0 ≤ calcHandOpenness sq lms ∧ calcHandOpenness sq lms ≤ 1 := by
  unfold calcHandOpenness
  dsimp only
  constructor
  · apply le_min ?_ (by norm_num)
    by_cases he :
        (pairwiseDists sq (fingertipIndices.map (fun i => lms.getD i defaultLm))).isEmpty
    · rw [if_pos he]
      norm_num
    · rw [if_neg he]
      have h0 : 0 ≤ mean (pairwiseDists sq (fingertipIndices.map (fun i => lms.getD i defaultLm))) :=
        mean_nonneg _ (pairwiseDists_nonneg sq hsq _)
      positivity
  · exact min_le_right _ _

/-- `_calculate_match_score` stays within `[0,1]` against any well-formed rule
and nonnegative openness. -/
theorem calcMatchScore_unit (fingers : List ℕ) (openness : ℚ) (rule : SignRule)
    (hf : ∀ ef, rule.fingers_extended = some ef → ef.length = 5)
    (hmn : ∀ mn, rule.hand_openness_min = some mn → 0 < mn)
    (hmx : ∀ mx, rule.hand_openness_max = some mx → 0 < mx)
    (hop : 0 ≤ openness) :
    0 ≤ calcMatchScore fingers openness rule ∧
    calcMatchScore fingers openness rule ≤ 1 := by
  obtain ⟨fe, mn, mx⟩ := rule
  have hfsB : ∀ ef : List ℕ, ef.length = 5 →
      0 ≤ ((((ef.zip fingers).filter (fun p => p.1 = p.2)).length : ℚ) / 5) ∧
      ((((ef.zip fingers).filter (fun p => p.1 = p.2)).length : ℚ) / 5) ≤ 1 := by
    intro ef hlen
    refine ⟨by positivity, ?_⟩
    rw [div_le_one (by norm_num)]
    have h1 : ((ef.zip fingers).filter (fun p => p.1 = p.2)).length ≤
        (ef.zip fingers).length := List.length_filter_le _ _
    have h2 : (ef.zip fingers).length ≤ ef.length := by
      rw [List.length_zip]
      exact min_le_left _ _
    have h3 : ((ef.zip fingers).filter (fun p => p.1 = p.2)).length ≤ 5 := by omega
    exact_mod_cast h3
  have hminB : ∀ m : ℚ, 0 < m →
      0 ≤ (if openness ≥ m then (1 : ℚ) else openness / m) ∧
      (if openness ≥ m then (1 : ℚ) else openness / m) ≤ 1 := by
    intro m hm
    by_cases hc : openness ≥ m
    · rw [if_pos hc]; norm_num
    · rw [if_neg hc]
      push_neg at hc
      exact ⟨div_nonneg hop hm.le, (div_le_one hm).mpr hc.le⟩
  have hmaxB : ∀ m : ℚ, 0 < m →
      0 ≤ (if openness ≤ m then (1 : ℚ) else m / openness) ∧
      (if openness ≤ m then (1 : ℚ) else m / openness) ≤ 1 := by
    intro m hm
    by_cases hc : openness ≤ m
    · rw [if_pos hc]; norm_num
    · rw [if_neg hc]
      push_neg at hc
      have hop2 : 0 < openness := hm.trans hc
      exact ⟨div_nonneg hm.le hop2.le, (div_le_one hop2).mpr hc.le⟩
  unfold calcMatchScore
  dsimp only
  cases fe with
  | none =>
      cases mn with
      | none =>
          cases mx with
          | none => norm_num
          | some M =>
              apply mean_unit_of_all
              intro x hx
              simp only [List.nil_append, List.mem_singleton] at hx
              subst hx
              exact hmaxB M (hmx M rfl)
      | some m =>
          cases mx with
          | none =>
              apply mean_unit_of_all
              intro x hx
              simp only [List.nil_append, List.mem_singleton] at hx
              subst hx
              exact hminB m (hmn m rfl)
          | some M =>
              apply mean_unit_of_all
              intro x hx
              simp only [List.nil_append, List.cons_append, List.mem_cons,
                List.mem_singleton, List.not_mem_nil, or_false] at hx
              rcases hx with rfl | rfl
              · exact hminB m (hmn m rfl)
              · exact hmaxB M (hmx M rfl)
  | some ef =>
      cases mn with
      | none =>
          cases mx with
          | none =>
              apply mean_unit_of_all
              intro x hx
              simp only [List.mem_singleton] at hx
              subst hx
              exact hfsB ef (hf ef rfl)
          | some M =>
              apply mean_unit_of_all
              intro x hx
              simp only [List.cons_append, List.nil_append, List.mem_cons,
                List.mem_singleton, List.not_mem_nil, or_false] at hx
              rcases hx with rfl | rfl
              · exact hfsB ef (hf ef rfl)
              · exact hmaxB M (hmx M rfl)
      | some m =>
          cases mx with
          | none =>
              apply mean_unit_of_all
              intro x hx
              simp only [List.cons_append, List.nil_append, List.mem_cons,
                List.mem_singleton, List.not_mem_nil, or_false] at hx
              rcases hx with rfl | rfl
              · exact hfsB ef (hf ef rfl)
              · exact hminB m (hmn m rfl)
          | some M =>
              apply mean_unit_of_all
              intro x hx
              simp only [List.cons_append, List.nil_append, List.mem_cons,
                List.mem_singleton, List.not_mem_nil, or_false] at hx
              rcases hx with rfl | rfl | rfl
              · exact hfsB ef (hf ef rfl)
              · exact hminB m (hmn m rfl)
              · exact hmaxB M (hmx M rfl)

/-- `validate_prediction` keeps `geometry_score` in `[0,1]` and can only keep
or decrease a nonnegative confidence. -/
theorem validatePrediction_unit (sq : ℚ → ℚ) (hsq : ∀ q, 0 ≤ sq q)
    (lms : List Landmark) (label : String) (conf : ℚ) (h0 : 0 ≤ conf) :
    0 ≤ (validatePrediction sq lms label conf).geometry_score ∧
    (validatePrediction sq lms label conf).geometry_score ≤ 1 ∧
    0 ≤ (validatePrediction sq lms label conf).confidence ∧
    (validatePrediction sq lms label conf).confidence ≤ conf := by
  unfold validatePrediction
  dsimp only
  rcases hl : List.lookup (pyUpper label) signRules with _ | rule
  · exact ⟨by norm_num, by norm_num, h0, le_refl conf⟩
  · rcases hcf : calcFeatures sq lms with _ | ⟨fingers, openness⟩
    · refine ⟨by norm_num, by norm_num, mul_nonneg h0 (by norm_num), ?_⟩
      exact mul_le_of_le_one_right h0 (by norm_num)
    · have hof : openness = calcHandOpenness sq lms := by
        unfold calcFeatures at hcf
        by_cases hv : visibleCount lms < 15
        · rw [if_pos hv] at hcf
          cases hcf
        · rw [if_neg hv] at hcf
          injection hcf with h1 h2
          exact h2.symm
      obtain ⟨hf, hmn, hmx⟩ := signRules_wf (pyUpper label, rule) (mem_of_lookup_eq_some hl)
      have hop0 : 0 ≤ openness := by
        rw [hof]
        exact (calcHandOpenness_unit sq hsq lms).1
      have hscore := calcMatchScore_unit fingers openness rule hf hmn hmx hop0
      exact ⟨hscore.1, hscore.2, mul_nonneg h0 hscore.1,
        mul_le_of_le_one_right h0 hscore.2⟩

/-- Hypothesis of claim C1: every raw confidence the external classifier
returned lies in `[0,1]`. -/
def PredsInUnit (modelResults : List (RoboflowModel × Option (List Prediction))) : Prop :=
  ∀ mr ∈ modelResults, ∀ ps, mr.2 = some ps → ∀ p ∈ ps,
    0 ≤ p.confidence ∧ p.confidence ≤ 1

theorem modelLoopStep_unit (st : LoopState)
    (entry : RoboflowModel × Option (List Prediction))
    (hst : 0 ≤ st.bestConfidence ∧ st.bestConfidence ≤ 1)
    (hen : ∀ ps, entry.2 = some ps → ∀ p ∈ ps, 0 ≤ p.confidence ∧ p.confidence ≤ 1) :
    0 ≤ (modelLoopStep st entry).bestConfidence ∧
    (modelLoopStep st entry).bestConfidence ≤ 1 := by
  unfold modelLoopStep
  rcases hps : entry.2 with _ | preds
  · exact hst
  · dsimp only
    by_cases he : preds.isEmpty
    · rw [if_pos he]
      exact hst
    · rw [if_neg he]
      split
      · exact hst
      next mb hmb =>
        split
        next hadj =>
          exact hen preds hps mb (List.mem_of_mem_filter (pyMaxBy_mem _ hmb))
        next hadj => exact hst

theorem modelLoop_unit (modelResults : List (RoboflowModel × Option (List Prediction)))
    (h : PredsInUnit modelResults) :
    0 ≤ (modelLoop modelResults).bestConfidence ∧
    (modelLoop modelResults).bestConfidence ≤ 1 := by
  unfold modelLoop
  suffices haux : ∀ (l : List (RoboflowModel × Option (List Prediction))) (st : LoopState),
      (0 ≤ st.bestConfidence ∧ st.bestConfidence ≤ 1) →
      (∀ mr ∈ l, ∀ ps, mr.2 = some ps → ∀ p ∈ ps, 0 ≤ p.confidence ∧ p.confidence ≤ 1) →
      0 ≤ (l.foldl modelLoopStep st).bestConfidence ∧
      (l.foldl modelLoopStep st).bestConfidence ≤ 1 by
    exact haux modelResults _ (by norm_num) h
  intro l
  induction l with
  | nil =>
      intro st hst _
      exact hst
  | cons e l ih =>
      intro st hst hl
      exact ih (modelLoopStep st e)
        (modelLoopStep_unit st e hst (fun ps hps => hl e (List.mem_cons_self _ _) ps hps))
        (fun mr hmr => hl mr (List.mem_cons_of_mem _ hmr))

/-- The per-hand classification confidence stays in `[0,1]`: the ×1.15
vocabulary boost is capped at 1, and the geometry adjustments (×score, ×0.9,
×0.8) only decrease a nonnegative value. -/
theorem classifyHandSign_unit (sq : ℚ → ℚ) (hsq : ∀ q, 0 ≤ sq q)
    (modelResults : List (RoboflowModel × Option (List Prediction)))
    (h : PredsInUnit modelResults) (blms : Option (List Landmark)) (handLabel : String) :
    0 ≤ (classifyHandSign sq modelResults blms handLabel).confD ∧
    (classifyHandSign sq modelResults blms handLabel).confD ≤ 1 := by
  have hbc := modelLoop_unit modelResults h
  unfold classifyHandSign
  dsimp only
  rcases (modelLoop modelResults).bestPrediction with _ | p
  · norm_num [SignResult.confD]
  · rcases (modelLoop modelResults).bestModel with _ | m
    · norm_num [SignResult.confD]
    · dsimp only
      by_cases hfil : pyUpper (pyStrip p.cls) ∈ falsePositives ∨
          pyUpper (pyStrip p.cls) ∈ englishWords
      · rw [if_pos hfil]
        norm_num [SignResult.confD]
      · rw [if_neg hfil]
        dsimp only [SignResult.confD]
        set B := (if pyUpper (pyStrip p.cls) ∈ malaysianSigns then
            min ((modelLoop modelResults).bestConfidence * (115 / 100)) 1
          else (modelLoop modelResults).bestConfidence) with hBdef
        have hB : 0 ≤ B ∧ B ≤ 1 := by
          rw [hBdef]
          by_cases hm : pyUpper (pyStrip p.cls) ∈ malaysianSigns
          · rw [if_pos hm]
            exact ⟨le_min (mul_nonneg hbc.1 (by norm_num)) zero_le_one, min_le_right _ _⟩
          · rw [if_neg hm]
            exact hbc
        rcases blms with _ | lms
        · exact hB
        · dsimp only
          by_cases hval :
              (validatePrediction sq lms (pyUpper (pyStrip p.cls)) B).validated
          · rw [if_pos hval]
            obtain ⟨_, _, hc0, hc1⟩ :=
              validatePrediction_unit sq hsq lms (pyUpper (pyStrip p.cls)) B hB.1
            exact ⟨hc0, hc1.trans hB.2⟩
          · rw [if_neg hval]
            refine ⟨mul_nonneg hB.1 (by norm_num), ?_⟩
            exact (mul_le_of_le_one_right hB.1 (by norm_num)).trans hB.2

/-- The aggregated best confidence of `detect_signs` is one of the per-hand
confidences, hence stays in `[0,1]` when they do. -/
theorem detectSigns_unit (hands : List HandDetection)
    (classify : HandDetection → SignResult)
    (h : ∀ hd ∈ hands, 0 ≤ (classify hd).confD ∧ (classify hd).confD ≤ 1) :
    0 ≤ (detectSigns hands classify).confD ∧
    (detectSigns hands classify).confD ≤ 1 := by
  unfold detectSigns
  rcases hands with _ | ⟨h0, rest⟩
  · norm_num [DetectionOutcome.confD]
  · dsimp only
    split
    next best hbest =>
      dsimp only [DetectionOutcome.confD]
      obtain ⟨hd, hhd, rfl⟩ :=
        List.mem_map.mp (List.mem_of_mem_filter (pyMaxBy_mem _ hbest))
      exact h hd hhd
    next hbest =>
      norm_num [DetectionOutcome.confD]

/-- C1: assuming the external classifier's raw confidences lie in `[0,1]` (and
a nonnegative square root), every confidence value the pipeline produces lies
in `[0,1]`: (i) `validate_prediction` keeps `geometry_score` in `[0,1]` and
can only keep or decrease a nonnegative confidence (its adjustments multiply
by `geometry_score ∈ [0,1]` or by 0.9); (ii) the per-hand classification
confidence — after the ×1.15 vocabulary boost capped at 1.0 and the geometry
adjustments (×score, ×0.9 inside the validator, ×0.8 on mismatch) — stays in
`[0,1]`; (iii) the aggregated `detect_signs` confidence stays in `[0,1]`. -/
theorem C1_confidence_unit_interval (sq : ℚ → ℚ) (hsq : ∀ q, 0 ≤ sq q) :
    (∀ (lms : List Landmark) (label : String) (conf : ℚ), 0 ≤ conf → conf ≤ 1 →
      0 ≤ (validatePrediction sq lms label conf).geometry_score ∧
      (validatePrediction sq lms label conf).geometry_score ≤ 1 ∧
      0 ≤ (validatePrediction sq lms label conf).confidence ∧
      (validatePrediction sq lms label conf).confidence ≤ conf ∧
      (validatePrediction sq lms label conf).confidence ≤ 1) ∧
    (∀ modelResults, PredsInUnit modelResults →
      ∀ (blms : Option (List Landmark)) (handLabel : String),
      0 ≤ (classifyHandSign sq modelResults blms handLabel).confD ∧
      (classifyHandSign sq modelResults blms handLabel).confD ≤ 1) ∧
    (∀ (hands : List HandDetection) (classify : HandDetection → SignResult),
      (∀ hd ∈ hands, 0 ≤ (classify hd).confD ∧ (classify hd).confD ≤ 1) →
      0 ≤ (detectSigns hands classify).confD ∧
      (detectSigns hands classify).confD ≤ 1) := by
  refine ⟨?_, ?_, ?_⟩
  · intro lms label conf h0 h1
    obtain ⟨hg0, hg1, hc0, hcd⟩ := validatePrediction_unit sq hsq lms label conf h0
    exact ⟨hg0, hg1, hc0, hcd, hcd.trans h1⟩
  · intro modelResults h blms handLabel
    exact classifyHandSign_unit sq hsq modelResults h blms handLabel
  · intro hands classify h
    exact detectSigns_unit hands classify h

/-- Witness for `C1_confidence_unit_interval`: the configured single-model
setup with one concrete raw prediction of confidence 0.5. -/
theorem C1_confidence_unit_interval_witness :
    (∀ q, 0 ≤ zeroSqrt q) ∧
    PredsInUnit [(bimModel, some [{ cls := "SAYA", confidence := 1 / 2 }])] ∧
    (0 ≤ (classifyHandSign zeroSqrt
        [(bimModel, some [{ cls := "SAYA", confidence := 1 / 2 }])] none "Right").confD ∧
     (classifyHandSign zeroSqrt
        [(bimModel, some [{ cls := "SAYA", confidence := 1 / 2 }])] none "Right").confD ≤ 1) := by
  have hsq : ∀ q, 0 ≤ zeroSqrt q := fun q => le_refl 0
  have hpd : PredsInUnit [(bimModel, some [{ cls := "SAYA", confidence := 1 / 2 }])] := by
    intro mr hmr ps hps p hp
    rw [List.mem_singleton] at hmr
    subst hmr
    have hps2 : ps = [{ cls := "SAYA", confidence := 1 / 2 }] := (Option.some.inj hps).symm
    subst hps2
    rw [List.mem_singleton] at hp
    subst hp
    norm_num
  exact ⟨hsq, hpd,
    (C1_confidence_unit_interval zeroSqrt hsq).2.1
      [(bimModel, some [{ cls := "SAYA", confidence := 1 / 2 }])] hpd none "Right"⟩

/-! ## Claims C3 and C10: best-candidate selection and field provenance -/

/-- With the configured single-model list, the model loop's chosen prediction
is exactly Python `max` over the predictions that survived the 0.15 threshold
filter (`none` when the call failed or nothing survived). -/
theorem modelLoop_single (r : Option (List Prediction)) :
    (modelLoop (theModels.map (fun m => (m, r)))).bestPrediction =
      pyMaxBy (fun p => p.confidence)
        ((r.getD []).filter (fun p => p.confidence ≥ minSignConfidence)) := by
  rcases r with _ | preds
  · rfl
  · show (modelLoopStep { bestPrediction := none, bestConfidence := 0, bestModel := none }
      (bimModel, some preds)).bestPrediction = _
    unfold modelLoopStep
    dsimp only [Option.getD]
    by_cases he : preds.isEmpty
    · rw [if_pos he]
      rw [List.isEmpty_iff.mp he]
      rfl
    · rw [if_neg he]
      split
      next hmb => exact hmb.symm
      next mb hmb =>
        have hge : mb.confidence ≥ minSignConfidence :=
          of_decide_eq_true (List.mem_filter.mp (pyMaxBy_mem _ hmb)).2
        have hpos : mb.confidence * bimModel.boost >
            ({ bestPrediction := none, bestConfidence := 0,
               bestModel := none } : LoopState).bestConfidence := by
          have h1 : (0 : ℚ) < minSignConfidence := by norm_num [minSignConfidence]
          have h2 : (0 : ℚ) < mb.confidence := lt_of_lt_of_le h1 hge
          show mb.confidence * bimModel.boost > 0
      
          have hb : bimModel.boost = 1 := rfl
          rw [hb, mul_one]
          exact h2
        rw [if_pos hpos]
        exact hmb.symm

/-- The success-case fields of `detect_signs` come from the Python-`max`
winner over the successful per-hand results: its confidence strictly exceeds
every earlier surviving result and is no smaller than every later one. -/
theorem detectSigns_best_spec (hands : List HandDetection)
    (classify : HandDetection → SignResult) (label : String) (conf : ℚ)
    (mu hand : String) (boxes : List OutBox) (lms : List Landmark) (n : ℕ)
    (hdet : detectSigns hands classify =
      DetectionOutcome.detected label conf mu hand boxes lms n) :
    ∃ (best : HandDetection × SignResult) (l1 l2 : List (HandDetection × SignResult)),
      (hands.map (fun hd => (hd, classify hd))).filter (fun p => p.2.success) =
        l1 ++ best :: l2 ∧
      label = best.2.labelD ∧ conf = best.2.confD ∧ mu = best.2.modelNameD ∧
      hand = best.2.handD ∧
      (∀ q ∈ l1, q.2.confD < conf) ∧ (∀ q ∈ l2, q.2.confD ≤ conf) := by
  unfold detectSigns at hdet
  rcases hands with _ | ⟨h0, rest⟩
  · cases hdet
  · dsimp only at hdet
    rw [List.map_cons]
    split at hdet
    next best hbest =>
      injection hdet with e1 e2 e3 e4 e5 e6 e7
      obtain ⟨l1, l2, hsplit, hpre, hsuf⟩ := pyMaxBy_spec _ hbest
      subst e1
      subst e2
      subst e3
      subst e4
      exact ⟨best, l1, l2, hsplit, rfl, rfl, rfl, rfl, hpre, hsuf⟩
    next hbest => cases hdet

/-- C3: with the configured model list (the single BIM model, boost 1.0),
(i) the per-hand chosen candidate is Python `max` by raw confidence over the
predictions at or above the 0.15 threshold — lower ones are discarded first;
(ii) Python `max` by key keeps the FIRST element attaining the maximum
(everything earlier is strictly smaller, everything later no larger), making
selection deterministic; (iii) across hands in detection order, the
success-case result of `detect_signs` is the first surviving per-hand result
of maximal adjusted confidence. -/
theorem C3_best_selection :
    (∀ (r : Option (List Prediction)),
      (modelLoop (theModels.map (fun m => (m, r)))).bestPrediction =
        pyMaxBy (fun p => p.confidence)
          ((r.getD []).filter (fun p => p.confidence ≥ minSignConfidence))) ∧
    (∀ {α : Type} (key : α → ℚ) (l : List α) (x : α), pyMaxBy key l = some x →
      ∃ l1 l2, l = l1 ++ x :: l2 ∧ (∀ y ∈ l1, key y < key x) ∧
        (∀ y ∈ l2, key y ≤ key x)) ∧
    (∀ (hands : List HandDetection) (classify : HandDetection → SignResult)
        (label : String) (conf : ℚ) (mu hand : String) (boxes : List OutBox)
        (lms : List Landmark) (n : ℕ),
      detectSigns hands classify =
        DetectionOutcome.detected label conf mu hand boxes lms n →
      ∃ best l1 l2,
        (hands.map (fun hd => (hd, classify hd))).filter (fun p => p.2.success) =
          l1 ++ best :: l2 ∧
        label = best.2.labelD ∧ conf = best.2.confD ∧ mu = best.2.modelNameD ∧
        hand = best.2.handD ∧
        (∀ q ∈ l1, q.2.confD < conf) ∧ (∀ q ∈ l2, q.2.confD ≤ conf)) :=
  ⟨modelLoop_single,
   fun key _ _ h => pyMaxBy_spec key h,
   detectSigns_best_spec⟩

/-- Witness for `C3_best_selection`: the tie-break conjunct at the concrete
list `[1, 2, 2]`, whose Python `max` is the first 2. -/
theorem C3_best_selection_witness :
    pyMaxBy (fun x : ℚ => x) [1, 2, 2] = some 2 ∧
    (∃ l1 l2, ([1, 2, 2] : List ℚ) = l1 ++ 2 :: l2 ∧
      (∀ y ∈ l1, y < 2) ∧ (∀ y ∈ l2, y ≤ 2)) := by
  have h : pyMaxBy (fun x : ℚ => x) [1, 2, 2] = some 2 := by
    norm_num [pyMaxBy, pyFold]
  exact ⟨h, C3_best_selection.2.1 (fun x => x) [1, 2, 2] 2 h⟩

/-- C10: whenever at least one hand classifies successfully, the top-level
`landmarks` field of the success result is taken from the FIRST detected hand
(`hand_detections[0]`), regardless of which hand won; only `label`,
`confidence`, `model_used` and `hand` come from the winning per-hand result. -/
theorem C10_landmarks_from_first_hand (h0 : HandDetection)
    (rest : List HandDetection) (classify : HandDetection → SignResult)
    (label : String) (conf : ℚ) (mu hand : String) (boxes : List OutBox)
    (lms : List Landmark) (n : ℕ)
    (hdet : detectSigns (h0 :: rest) classify =
      DetectionOutcome.detected label conf mu hand boxes lms n) :
    lms = h0.landmarks ∧
    ∃ best ∈ ((h0 :: rest).map (fun hd => (hd, classify hd))).filter
        (fun p => p.2.success),
      label = best.2.labelD ∧ conf = best.2.confD ∧
      mu = best.2.modelNameD ∧ hand = best.2.handD := by
  unfold detectSigns at hdet
  dsimp only at hdet
  rw [List.map_cons]
  split at hdet
  next best hbest =>
    injection hdet with e1 e2 e3 e4 e5 e6 e7
    subst e1
    subst e2
    subst e3
    subst e4
    subst e6
    exact ⟨rfl, best, pyMaxBy_mem _ hbest, rfl, rfl, rfl, rfl⟩
  next hbest => cases hdet

/-- A one-hand input for the C10 witness. -/
def c10Hand : HandDetection :=
  { hand_label := "Right", confidence := 9 / 10,
    bbox := { x := 0, y := 0, width := 0, height := 0,
              x_min := 0, y_min := 0, x_max := 0, y_max := 0 },
    landmarks := [{ x := 5, y := 6, z := 0, visibility := 1 }] }

/-- A constant successful classification for the C10 witness. -/
def c10Classify : HandDetection → SignResult :=
  fun hd => .ok "SAYA" (1 / 2) "BIM v10" "#00FFD1" hd.hand_label true

/-- Witness for `C10_landmarks_from_first_hand` on one concrete hand. -/
theorem C10_landmarks_from_first_hand_witness :
    detectSigns [c10Hand] c10Classify =
      DetectionOutcome.detected "SAYA" (1 / 2) "BIM v10" "Right"
        [mkSignBox c10Hand (c10Classify c10Hand)] c10Hand.landmarks 1 ∧
    (c10Hand.landmarks = c10Hand.landmarks ∧
     ∃ best ∈ (([c10Hand]).map (fun hd => (hd, c10Classify hd))).filter
         (fun p => p.2.success),
       "SAYA" = best.2.labelD ∧ (1 / 2 : ℚ) = best.2.confD ∧
       "BIM v10" = best.2.modelNameD ∧ "Right" = best.2.handD) := by
  have h : detectSigns [c10Hand] c10Classify =
      DetectionOutcome.detected "SAYA" (1 / 2) "BIM v10" "Right"
        [mkSignBox c10Hand (c10Classify c10Hand)] c10Hand.landmarks 1 := rfl
  exact ⟨h, C10_landmarks_from_first_hand c10Hand [] c10Classify _ _ _ _ _ _ _ h⟩

/-! ## Claim C8: deny-listed / English labels are rejected before validation -/

/-- When every per-hand classification fails, nothing survives the success
filter. -/
theorem filter_success_nil (hands : List HandDetection)
    (classify : HandDetection → SignResult)
    (h : ∀ hd ∈ hands, (classify hd).success = false) :
    (hands.map (fun hd => (hd, classify hd))).filter (fun p => p.2.success) = [] := by
  induction hands with
  | nil => rfl
  | cons a l ih =>
      rw [List.map_cons, List.filter_cons]
      rw [h a (List.mem_cons_self _ _)]
      simp only [Bool.false_eq_true, if_false]
      exact ih (fun hd hhd => h hd (List.mem_cons_of_mem _ hhd))

/-- `detect_signs` on all-failing classifications returns the generic no-sign
outcome built from the hand detections alone. -/
theorem detectSigns_of_all_fail (h0 : HandDetection) (rest : List HandDetection)
    (classify : HandDetection → SignResult)
    (h : ∀ hd ∈ h0 :: rest, (classify hd).success = false) :
    detectSigns (h0 :: rest) classify =
      DetectionOutcome.noSign ((h0 :: rest).map mkHandBox) (h0 :: rest).length := by
  have hf := filter_success_nil (h0 :: rest) classify h
  unfold detectSigns
  dsimp only
  rw [hf]
  rfl

/-- C8: when the best surviving prediction normalizes (strip + uppercase) to a
label on the false-positive deny-list or the English stop-word list, the
per-hand classification fails with a message naming the filtered word — for
EVERY square root and EVERY landmark option, so the geometry validator is
never consulted — and, from the caller's perspective, any two all-failing
per-hand classifications produce identical `detect_signs` outcomes (a filtered
label is indistinguishable from no confident classification). -/
theorem C8_filtered_false_positive (sq : ℚ → ℚ)
    (modelResults : List (RoboflowModel × Option (List Prediction)))
    (blms : Option (List Landmark)) (handLabel : String)
    (p : Prediction) (m : RoboflowModel)
    (hbp : (modelLoop modelResults).bestPrediction = some p)
    (hbm : (modelLoop modelResults).bestModel = some m)
    (hfil : pyUpper (pyStrip p.cls) ∈ falsePositives ∨
      pyUpper (pyStrip p.cls) ∈ englishWords) :
    classifyHandSign sq modelResults blms handLabel =
      SignResult.fail ("Filtered non-Malaysian sign: " ++ pyUpper (pyStrip p.cls)) ∧
    (classifyHandSign sq modelResults blms handLabel).success = false ∧
    (∀ (hands : List HandDetection) (classify1 classify2 : HandDetection → SignResult),
      (∀ hd ∈ hands, (classify1 hd).success = false) →
      (∀ hd ∈ hands, (classify2 hd).success = false) →
      detectSigns hands classify1 = detectSigns hands classify2) := by
  have hmain : classifyHandSign sq modelResults blms handLabel =
      SignResult.fail ("Filtered non-Malaysian sign: " ++ pyUpper (pyStrip p.cls)) := by
    unfold classifyHandSign
    dsimp only
    rw [hbp, hbm]
    dsimp only
    rw [if_pos hfil]
  refine ⟨hmain, by rw [hmain]; rfl, ?_⟩
  intro hands classify1 classify2 h1 h2
  rcases hands with _ | ⟨hd0, rest⟩
  · rfl
  · rw [detectSigns_of_all_fail hd0 rest classify1 h1,
      detectSigns_of_all_fail hd0 rest classify2 h2]

/-- The stop-word prediction used to witness C8. -/
def c8Pred : Prediction := { cls := " the ", confidence := 1 / 2 }

/-- A single-model result set returning only the stop-word prediction. -/
def c8Results : List (RoboflowModel × Option (List Prediction)) :=
  [(bimModel, some [c8Pred])]

/-- Witness for `C8_filtered_false_positive`: the raw label `" the "`
normalizes to `"THE"`, which is on the English stop-word list. -/
theorem C8_filtered_false_positive_witness :
    (modelLoop c8Results).bestPrediction = some c8Pred ∧
    (modelLoop c8Results).bestModel = some bimModel ∧
    (pyUpper (pyStrip c8Pred.cls) ∈ falsePositives ∨
      pyUpper (pyStrip c8Pred.cls) ∈ englishWords) ∧
    classifyHandSign zeroSqrt c8Results none "Right" =
      SignResult.fail ("Filtered non-Malaysian sign: " ++ pyUpper (pyStrip c8Pred.cls)) := by
  have hloop : modelLoop c8Results =
      { bestPrediction := some c8Pred, bestConfidence := 1 / 2,
        bestModel := some bimModel } := by
    show modelLoopStep { bestPrediction := none, bestConfidence := 0, bestModel := none }
      (bimModel, some [c8Pred]) = _
    unfold modelLoopStep
    norm_num [pyMaxBy, pyFold, minSignConfidence, c8Pred, bimModel, List.filter]
  have hfil : pyUpper (pyStrip c8Pred.cls) ∈ falsePositives ∨
      pyUpper (pyStrip c8Pred.cls) ∈ englishWords := by decide
  refine ⟨by rw [hloop], by rw [hloop], hfil, ?_⟩
  exact (C8_filtered_false_positive zeroSqrt c8Results none "Right" c8Pred bimModel
    (by rw [hloop]) (by rw [hloop]) hfil).1

/-! ## Claims C6 and C7: detection-cache round-trip and eviction -/

/-- Looking up the key just written by Python dict assignment finds the new
entry. -/
theorem lookup_dictInsert {α : Type} (k : String) (e : CacheEntry α) :
    ∀ c : Cache α, List.lookup k (dictInsert k e c) = some e := by
  intro c
  induction c with
  | nil =>
      show List.lookup k [(k, e)] = some e
      rw [List.lookup]
      rw [show (k == k) = true from beq_self_eq_true k]
  | cons kv rest ih =>
      show List.lookup k (if kv.1 = k then (k, e) :: rest else kv :: dictInsert k e rest) = some e
      by_cases hk : kv.1 = k
      · rw [if_pos hk]
        rw [List.lookup]
        rw [show (k == k) = true from beq_self_eq_true k]
      · rw [if_neg hk]
        rw [List.lookup]
        have hbeq : (k == kv.1) = false := by
          rw [beq_eq_false_iff_ne]
          exact fun hc => hk hc.symm
        rw [hbeq]
        exact ih

/-- C6: a `put` at time `t0` immediately followed by a `get` of the same key
at time `t1` hits, returning exactly the stored result, when strictly within
the 2-second TTL window (`t1 - t0 < 2`), and misses once the TTL has elapsed
(`t1 - t0 ≥ 2`). -/
theorem C6_cache_roundtrip {α : Type} (cache : Cache α) (k : String) (r : α)
    (t0 t1 : ℚ) :
    (getCachedResult (cacheResult cache k r t0) k t1).1 =
      if t1 - t0 < cacheTTL then some r else none := by
  unfold getCachedResult
  have hl : List.lookup k (cacheResult cache k r t0) =
      some { result := r, timestamp := t0 } := by
    unfold cacheResult
    dsimp only
    exact lookup_dictInsert k { result := r, timestamp := t0 } _
  rw [hl]
  dsimp only
  by_cases hc : t1 - t0 < cacheTTL
  · rw [if_pos hc, if_pos hc]
  · rw [if_neg hc, if_neg hc]

/-- Cache entries ordered by strictly increasing insertion timestamp. -/
def TimesSorted {α : Type} (c : Cache α) : Prop :=
  c.Pairwise (fun a b => a.2.timestamp < b.2.timestamp)

/-- Inserting an entry no later than everything in the list puts it in
front. -/
theorem insertByTime_of_le {α : Type} (e : String × CacheEntry α)
    (c : Cache α) (h : ∀ kv ∈ c, e.2.timestamp ≤ kv.2.timestamp) :
    insertByTime e c = e :: c := by
  cases c with
  | nil => rfl
  | cons kv rest =>
      show (if e.2.timestamp ≤ kv.2.timestamp then e :: kv :: rest
        else kv :: insertByTime e rest) = e :: kv :: rest
      rw [if_pos (h kv (List.mem_cons_self _ _))]

/-- The stable timestamp sort is the identity on an already-sorted cache. -/
theorem sortByTime_of_sorted {α : Type} :
    ∀ (c : Cache α), TimesSorted c → sortByTime c = c := by
  intro c
  induction c with
  | nil => intro _; rfl
  | cons x xs ih =>
      intro h
      obtain ⟨hx, hxs⟩ := List.pairwise_cons.mp h
      show insertByTime x (sortByTime xs) = x :: xs
      rw [ih hxs]
      exact insertByTime_of_le x xs (fun kv hkv => (hx kv hkv).le)

/-- Python dict assignment with a fresh key appends the entry. -/
theorem dictInsert_of_not_mem {α : Type} (k : String) (e : CacheEntry α) :
    ∀ (c : Cache α), (∀ kv ∈ c, kv.1 ≠ k) → dictInsert k e c = c ++ [(k, e)] := by
  intro c
  induction c with
  | nil => intro _; rfl
  | cons kv rest ih =>
      intro h
      show (if kv.1 = k then (k, e) :: rest else kv :: dictInsert k e rest) = _
      rw [if_neg (h kv (List.mem_cons_self _ _))]
      rw [List.cons_append]
      rw [ih (fun kv2 h2 => h kv2 (List.mem_cons_of_mem _ h2))]

/-- Deleting the keys of a block from the concatenation of that block with a
key-disjoint remainder leaves exactly the remainder. -/
theorem filter_not_keys_append {α : Type} (c1 c2 : Cache α)
    (hdisj : ∀ kv ∈ c2, kv.1 ∉ c1.map (fun kv => kv.1)) :
    (c1 ++ c2).filter (fun kv => !((c1.map (fun kv => kv.1)).contains kv.1)) = c2 := by
  rw [List.filter_append]
  have h1 : c1.filter (fun kv => !((c1.map (fun kv => kv.1)).contains kv.1)) = [] := by
    rw [List.filter_eq_nil_iff]
    intro kv hkv
    have hc : (c1.map (fun kv => kv.1)).contains kv.1 = true :=
      List.elem_iff.mpr (List.mem_map_of_mem (fun kv => kv.1) hkv)
    simp only [hc, Bool.not_true, Bool.false_eq_true, not_false_eq_true]
  have h2 : c2.filter (fun kv => !((c1.map (fun kv => kv.1)).contains kv.1)) = c2 := by
    rw [List.filter_eq_self]
    intro kv hkv
    simpa using hdisj kv hkv
  rw [h1, h2, List.nil_append]

/-- The eviction step of `_cache_result` on a full, time-sorted cache with
distinct keys: exactly the first 10 entries — the 10 oldest by timestamp —
are deleted, and the fresh entry is appended. -/
theorem cacheResult_evict {α : Type} (c : Cache α) (k : String) (r : α) (t : ℚ)
    (hsorted : TimesSorted c)
    (hkeys : (c.map (fun kv => kv.1)).Nodup)
    (hlen : maxCacheSize ≤ c.length)
    (hfresh : ∀ kv ∈ c, kv.1 ≠ k) :
    cacheResult c k r t = c.drop 10 ++ [(k, { result := r, timestamp := t })] := by
  unfold cacheResult
  dsimp only
  rw [if_pos hlen, sortByTime_of_sorted c hsorted]
  have hnodup2 : ((c.take 10).map (fun kv => kv.1) ++
      (c.drop 10).map (fun kv => kv.1)).Nodup := by
    rw [← List.map_append, List.take_append_drop]
    exact hkeys
  have hdisjoint := (List.nodup_append.mp hnodup2).2.2
  have hdisj : ∀ kv ∈ c.drop 10, kv.1 ∉ (c.take 10).map (fun kv => kv.1) :=
    fun kv hkv hmem =>
      hdisjoint hmem (List.mem_map_of_mem (fun kv => kv.1) hkv)
  have hfil := filter_not_keys_append (c.take 10) (c.drop 10) hdisj
  rw [List.take_append_drop] at hfil
  rw [hfil]
  exact dictInsert_of_not_mem k _ (c.drop 10)
    (fun kv hkv => hfresh kv (List.mem_of_mem_drop hkv))

/-- The non-eviction step of `_cache_result` on a non-full cache with a fresh
key: the entry is appended. -/
theorem cacheResult_append {α : Type} (c : Cache α) (k : String) (r : α) (t : ℚ)
    (hlen : ¬ maxCacheSize ≤ c.length)
    (hfresh : ∀ kv ∈ c, kv.1 ≠ k) :
    cacheResult c k r t = c ++ [(k, { result := r, timestamp := t })] := by
  unfold cacheResult
  dsimp only
  rw [if_neg hlen]
  exact dictInsert_of_not_mem k _ c hfresh

/-- One `_cache_result` step on a well-formed cache (time-sorted, distinct
keys, within capacity) with a fresh key inserted later than everything
present: well-formedness is preserved and the size stays at or below the
capacity bound. -/
theorem cacheResult_step {α : Type} (c : Cache α) (k : String) (r : α) (t : ℚ)
    (hsorted : TimesSorted c)
    (hkeys : (c.map (fun kv => kv.1)).Nodup)
    (hlen : c.length ≤ maxCacheSize)
    (hfresh : ∀ kv ∈ c, kv.1 ≠ k)
    (htime : ∀ kv ∈ c, kv.2.timestamp < t) :
    TimesSorted (cacheResult c k r t) ∧
    ((cacheResult c k r t).map (fun kv => kv.1)).Nodup ∧
    (cacheResult c k r t).length ≤ maxCacheSize ∧
    (∀ kv ∈ cacheResult c k r t,
      kv ∈ c ∨ kv = (k, { result := r, timestamp := t })) := by
  have hmax : maxCacheSize = 50 := rfl
  by_cases hful : maxCacheSize ≤ c.length
  · rw [cacheResult_evict c k r t hsorted hkeys hful hfresh]
    have hdropsub : (c.drop 10).Sublist c := List.drop_sublist 10 c
    refine ⟨?_, ?_, ?_, ?_⟩
    · unfold TimesSorted
      rw [List.pairwise_append]
      refine ⟨List.Pairwise.sublist hdropsub hsorted, List.pairwise_singleton _ _, ?_⟩
      intro a ha b hb
      rw [List.mem_singleton] at hb
      subst hb
      exact htime a (List.mem_of_mem_drop ha)
    · rw [List.map_append, List.nodup_append]
      refine ⟨List.Nodup.sublist (hdropsub.map _) hkeys, List.nodup_singleton _, ?_⟩
      intro a ha hb
      simp only [List.map_cons, List.map_nil, List.mem_singleton] at hb
      subst hb
      obtain ⟨kv, hkv, rfl⟩ := List.mem_map.mp ha
      exact hfresh kv (List.mem_of_mem_drop hkv) rfl
    · rw [List.length_append, List.length_drop]
      simp only [List.length_singleton]
      omega
    · intro kv hkv
      rcases List.mem_append.mp hkv with h | h
      · exact Or.inl (List.mem_of_mem_drop h)
      · rw [List.mem_singleton] at h
        exact Or.inr h
  · rw [cacheResult_append c k r t hful hfresh]
    refine ⟨?_, ?_, ?_, ?_⟩
    · unfold TimesSorted
      rw [List.pairwise_append]
      refine ⟨hsorted, List.pairwise_singleton _ _, ?_⟩
      intro a ha b hb
      rw [List.mem_singleton] at hb
      subst hb
      exact htime a ha
    · rw [List.map_append, List.nodup_append]
      refine ⟨hkeys, List.nodup_singleton _, ?_⟩
      intro a ha hb
      simp only [List.map_cons, List.map_nil, List.mem_singleton] at hb
      subst hb
      obtain ⟨kv, hkv, rfl⟩ := List.mem_map.mp ha
      exact hfresh kv hkv rfl
    · rw [List.length_append]
      simp only [List.length_singleton]
      omega
    · intro kv hkv
      rcases List.mem_append.mp hkv with h | h
      · exact Or.inl h
      · rw [List.mem_singleton] at h
        exact Or.inr h

/-- Every cache entry drawn from the insertions before `j` has a key distinct
from `j`'s and a timestamp strictly earlier than `j`'s. -/
theorem fresh_and_time_of_provenance {α : Type}
    (pfx : List (String × α × ℚ)) (j : String × α × ℚ) (c : Cache α)
    (hp : ∀ kv ∈ c, ∃ i ∈ pfx, kv = (i.1, { result := i.2.1, timestamp := i.2.2 }))
    (hkeys : ((pfx ++ [j]).map (fun i => i.1)).Nodup)
    (htimes : ((pfx ++ [j]).map (fun i => i.2.2)).Pairwise (· < ·)) :
    (∀ kv ∈ c, kv.1 ≠ j.1) ∧ (∀ kv ∈ c, kv.2.timestamp < j.2.2) := by
  constructor
  · intro kv hkv
    obtain ⟨i, hi, rfl⟩ := hp kv hkv
    intro hcontra
    rw [List.map_append] at hkeys
    have hdisj := (List.nodup_append.mp hkeys).2.2
    refine hdisj (List.mem_map_of_mem _ hi) ?_
    simp only [List.map_cons, List.map_nil, List.mem_singleton]
    exact hcontra
  · intro kv hkv
    obtain ⟨i, hi, rfl⟩ := hp kv hkv
    rw [List.map_append] at htimes
    have hcross := (List.pairwise_append.mp htimes).2.2
    exact hcross _ (List.mem_map_of_mem _ hi) _ (by simp)

/-- Fold invariant: starting from the empty cache, a sequence of insertions
with pairwise-distinct keys and strictly increasing timestamps keeps the
cache time-sorted, with distinct keys, at or below the capacity bound, and
every entry traceable to one of the insertions. -/
theorem foldInsert_invariant {α : Type} :
    ∀ (ins : List (String × α × ℚ)),
      (ins.map (fun i => i.1)).Nodup →
      (ins.map (fun i => i.2.2)).Pairwise (· < ·) →
      TimesSorted (foldInsert ins) ∧
      ((foldInsert ins).map (fun kv => kv.1)).Nodup ∧
      (foldInsert ins).length ≤ maxCacheSize ∧
      (∀ kv ∈ foldInsert ins,
        ∃ i ∈ ins, kv = (i.1, { result := i.2.1, timestamp := i.2.2 })) := by
  intro ins
  induction ins using List.reverseRecOn with
  | nil =>
      intro _ _
      refine ⟨List.Pairwise.nil, List.Pairwise.nil, by norm_num [foldInsert, maxCacheSize], ?_⟩
      intro kv hkv
      cases hkv
  | append_singleton ins0 j ih =>
      intro hkeys htimes
      have hkeys0 : (ins0.map (fun i => i.1)).Nodup := by
        rw [List.map_append] at hkeys
        exact hkeys.of_append_left
      have htimes0 : (ins0.map (fun i => i.2.2)).Pairwise (· < ·) := by
        rw [List.map_append] at htimes
        exact (List.pairwise_append.mp htimes).1
      obtain ⟨ihs, ihk, ihl, ihp⟩ := ih hkeys0 htimes0
      obtain ⟨hfresh, htlt⟩ :=
        fresh_and_time_of_provenance ins0 j (foldInsert ins0) ihp hkeys htimes
      have hstep : foldInsert (ins0 ++ [j]) =
          cacheResult (foldInsert ins0) j.1 j.2.1 j.2.2 := by
        unfold foldInsert
        rw [List.foldl_append]
        rfl
      obtain ⟨hs, hk, hl, hp⟩ :=
        cacheResult_step (foldInsert ins0) j.1 j.2.1 j.2.2 ihs ihk ihl hfresh htlt
      rw [hstep]
      refine ⟨hs, hk, hl, ?_⟩
      intro kv hkv
      rcases hp kv hkv with h | h
      · obtain ⟨i, hi, he⟩ := ihp kv h
        exact ⟨i, List.mem_append_left _ hi, he⟩
      · exact ⟨j, List.mem_append_right _ (List.mem_singleton.mpr rfl), h⟩

/-- C7: for every sequence of insertions of distinct keys at strictly
increasing timestamps, starting from the empty cache: (i) after each
insertion the cache size is at or below the capacity bound of 50, and the
cache remains ordered by insertion timestamp; (ii) whenever an insertion
finds the cache at capacity, it removes exactly the first 10 entries — the 10
oldest by insertion timestamp — in one bulk step, and appends the new
entry. -/
theorem C7_cache_eviction {α : Type} (ins : List (String × α × ℚ))
    (hkeys : (ins.map (fun i => i.1)).Nodup)
    (htimes : (ins.map (fun i => i.2.2)).Pairwise (· < ·)) :
    (∀ pfx rest, ins = pfx ++ rest →
      (foldInsert pfx).length ≤ maxCacheSize ∧ TimesSorted (foldInsert pfx)) ∧
    (∀ pfx j rest, ins = pfx ++ j :: rest →
      maxCacheSize ≤ (foldInsert pfx).length →
      foldInsert (pfx ++ [j]) =
        (foldInsert pfx).drop 10 ++
          [(j.1, { result := j.2.1, timestamp := j.2.2 })]) := by
  constructor
  · intro pfx rest hsplit
    subst hsplit
    have hkeys0 : (pfx.map (fun i => i.1)).Nodup := by
      rw [List.map_append] at hkeys
      exact hkeys.of_append_left
    have htimes0 : (pfx.map (fun i => i.2.2)).Pairwise (· < ·) := by
      rw [List.map_append] at htimes
      exact (List.pairwise_append.mp htimes).1
    obtain ⟨hs, _, hl, _⟩ := foldInsert_invariant pfx hkeys0 htimes0
    exact ⟨hl, hs⟩
  · intro pfx j rest hsplit hful
    subst hsplit
    have hsub : (pfx ++ [j]).Sublist (pfx ++ j :: rest) :=
      List.Sublist.append_left (List.singleton_sublist.mpr (List.mem_cons_self _ _)) pfx
    have hkeys1 : ((pfx ++ [j]).map (fun i => i.1)).Nodup :=
      List.Nodup.sublist (hsub.map _) hkeys
    have htimes1 : ((pfx ++ [j]).map (fun i => i.2.2)).Pairwise (· < ·) :=
      List.Pairwise.sublist (hsub.map _) htimes
    have hkeys0 : (pfx.map (fun i => i.1)).Nodup := by
      rw [List.map_append] at hkeys1
      exact hkeys1.of_append_left
    have htimes0 : (pfx.map (fun i => i.2.2)).Pairwise (· < ·) := by
      rw [List.map_append] at htimes1
      exact (List.pairwise_append.mp htimes1).1
    obtain ⟨ihs, ihk, _, ihp⟩ := foldInsert_invariant pfx hkeys0 htimes0
    obtain ⟨hfresh, _⟩ :=
      fresh_and_time_of_provenance pfx j (foldInsert pfx) ihp hkeys1 htimes1
    have hstep : foldInsert (pfx ++ [j]) =
        cacheResult (foldInsert pfx) j.1 j.2.1 j.2.2 := by
      unfold foldInsert
      rw [List.foldl_append]
      rfl
    rw [hstep]
    exact cacheResult_evict (foldInsert pfx) j.1 j.2.1 j.2.2 ihs ihk hful hfresh

/-- Fifty-one insertions with distinct keys `"0"…"50"` at strictly increasing
integer timestamps: the witness input for C7. -/
def c7Insertions : List (String × ℚ × ℚ) :=
  (List.range 51).map (fun i : ℕ => (toString i, (0 : ℚ), (i : ℚ)))

/-- The first fifty of `c7Insertions`. -/
def c7Prefix : List (String × ℚ × ℚ) :=
  (List.range 50).map (fun i : ℕ => (toString i, (0 : ℚ), (i : ℚ)))

set_option maxRecDepth 8000 in
/-- Witness for `C7_cache_eviction`: its hypotheses hold for `c7Insertions`,
the 51st insertion finds the cache at capacity (size 50 after the first 50),
and the theorem then gives both the size bound after every insertion and the
bulk eviction equation for the 51st. -/
theorem C7_cache_eviction_witness :
    ((c7Insertions.map (fun i => i.1)).Nodup ∧
     (c7Insertions.map (fun i => i.2.2)).Pairwise (· < ·) ∧
     maxCacheSize ≤ (foldInsert c7Prefix).length) ∧
    ((foldInsert c7Insertions).length ≤ maxCacheSize ∧
     foldInsert (c7Prefix ++ [("50", (0 : ℚ), (50 : ℚ))]) =
       (foldInsert c7Prefix).drop 10 ++
         [("50", { result := (0 : ℚ), timestamp := (50 : ℚ) })]) := by
  have hkeys : (c7Insertions.map (fun i => i.1)).Nodup := by decide
  have htimes : (c7Insertions.map (fun i => i.2.2)).Pairwise (· < ·) := by
    unfold c7Insertions
    rw [List.map_map, List.pairwise_map]
    refine List.Pairwise.imp ?_ (List.pairwise_lt_range 51)
    intro a b hab
    show ((a : ℕ) : ℚ) < ((b : ℕ) : ℚ)
    exact_mod_cast hab
  have hsplit : c7Insertions = c7Prefix ++ ("50", (0 : ℚ), (50 : ℚ)) :: [] := by
    unfold c7Insertions c7Prefix
    rw [List.range_succ, List.map_append]
    rfl
  have hful : maxCacheSize ≤ (foldInsert c7Prefix).length := by decide
  have hmain := C7_cache_eviction c7Insertions hkeys htimes
  refine ⟨⟨hkeys, htimes, hful⟩, ?_, ?_⟩
  · exact (hmain.1 c7Insertions [] (List.append_nil _).symm).1
  · exact hmain.2 c7Prefix ("50", (0 : ℚ), (50 : ℚ)) [] hsplit hful

/-! ## Claim C9: cropping never fails and yields the fixed target size -/

/-- A 100×100 test image. -/
def c9Img : Img := { rows := 100, cols := 100, px := fun _ _ => 7 }

/-- A degenerate (zero-area) bounding box inside `c9Img`. -/
def c9BBox : BBox :=
  { x := 5, y := 5, width := 0, height := 0,
    x_min := 5, y_min := 5, x_max := 5, y_max := 5 }

/-- C9, counterexample: the fast path `_crop_to_hand_region` has NO zero-area
guard — on a degenerate `(x, y, w, h) = (5, 5, 0, 0)` box the crop is empty
and `cv2.resize` raises (modelled as `none`), so "crop never fails" is false
for the 224×224 fast path. -/
theorem C9_counterexample :
    cropToHandRegion c9Img (5, 5, 0, 0) = none := rfl

/-- C9 (amended): the ACCURATE path `crop_hand_region` never fails: for every
image and bounding box it returns an image of the fixed 320×320 target size,
and when the crop region has zero area it returns the all-black 320×320
placeholder.  The fast path resizes unconditionally and raises on a zero-area
crop (`C9_counterexample`), so the guarantee holds only for the accurate
path. -/
theorem C9_crop_fixed_size (img : Img) (b : BBox) :
    (cropHandRegion img b).rows = 320 ∧ (cropHandRegion img b).cols = 320 ∧
    ((cropSlice img b.y_min.toNat b.y_max.toNat b.x_min.toNat b.x_max.toNat).rows = 0 ∨
     (cropSlice img b.y_min.toNat b.y_max.toNat b.x_min.toNat b.x_max.toNat).cols = 0 →
      cropHandRegion img b = zerosImg 320) := by
  unfold cropHandRegion
  by_cases hc :
      0 < (cropSlice img b.y_min.toNat b.y_max.toNat b.x_min.toNat b.x_max.toNat).rows ∧
      0 < (cropSlice img b.y_min.toNat b.y_max.toNat b.x_min.toNat b.x_max.toNat).cols
  · rw [if_pos hc]
    refine ⟨rfl, rfl, ?_⟩
    intro h
    rcases h with h | h
    · exact absurd h (by omega)
    · exact absurd h (by omega)
  · rw [if_neg hc]
    exact ⟨rfl, rfl, fun _ => rfl⟩

/-- Witness for `C9_crop_fixed_size` at the degenerate box `c9BBox`: the crop
is empty and the accurate path returns the black 320×320 placeholder. -/
theorem C9_crop_fixed_size_witness :
    ((cropSlice c9Img c9BBox.y_min.toNat c9BBox.y_max.toNat
        c9BBox.x_min.toNat c9BBox.x_max.toNat).rows = 0 ∨
     (cropSlice c9Img c9BBox.y_min.toNat c9BBox.y_max.toNat
        c9BBox.x_min.toNat c9BBox.x_max.toNat).cols = 0) ∧
    ((cropHandRegion c9Img c9BBox).rows = 320 ∧
     (cropHandRegion c9Img c9BBox).cols = 320 ∧
     cropHandRegion c9Img c9BBox = zerosImg 320) := by
  have h : (cropSlice c9Img c9BBox.y_min.toNat c9BBox.y_max.toNat
      c9BBox.x_min.toNat c9BBox.x_max.toNat).rows = 0 ∨
      (cropSlice c9Img c9BBox.y_min.toNat c9BBox.y_max.toNat
        c9BBox.x_min.toNat c9BBox.x_max.toNat).cols = 0 := Or.inl rfl
  obtain ⟨h1, h2, h3⟩ := C9_crop_fixed_size c9Img c9BBox
  exact ⟨h, h1, h2, h3 h⟩
